import Mathlib

/-!
Verification of the Rule-Engine-with-AST frontend (`RuleBuilder.tsx`) and of
the spec-described core engine. The frontend's handlers are embedded as pure
state-transition functions over an explicit UI state and a backend-response
environment; the platform JSON codec (`JSON.parse` / `JSON.stringify`) and the
backend engine, whose sources are not part of the repository, are modelled
from the spec.
-/

namespace RuleEngine

/-! ## JSON values

Modelled from the spec: the platform JSON codec used by the frontend
(`JSON.parse`, `JSON.stringify(·, null, 2)`). The spec's Record values are
numbers, strings, booleans and null; numbers are kept as their decimal
lexeme, which leaves the value structure of a parsed text intact without
committing to a floating-point semantics. -/
inductive JVal where
  | jnull
  | jbool (b : Bool)
  | jnum (lit : String)
  | jstr (s : String)
  | jarr (elems : List JVal)
  | jobj (fields : List (String × JVal))

/-- A digit character. -/
def digitB (c : Char) : Bool := ['0','1','2','3','4','5','6','7','8','9'].contains c

/-- Characters that may continue a JSON number lexeme. -/
def numCont (c : Char) : Bool := digitB c || ['.','e','E','+','-'].contains c

/-- JSON whitespace, as skipped by `JSON.parse`. -/
def isWs (c : Char) : Bool := c = ' ' || c = '\t' || c = '\n' || c = '\r'

def skipWs (l : List Char) : List Char := l.dropWhile isWs

def nonemptyDigits (l : List Char) : Bool := !l.isEmpty && l.all digitB

/-- Exponent tail after `e`/`E`: optional sign, then at least one digit. -/
def signDigits : List Char → Bool
  | [] => false
  | c :: t => if c = '+' || c = '-' then nonemptyDigits t else nonemptyDigits (c :: t)

/-- Optional exponent part of a number lexeme. -/
def expoOk : List Char → Bool
  | [] => true
  | c :: t => (c = 'e' || c = 'E') && signDigits t

/-- Optional fraction part (then optional exponent) of a number lexeme. -/
def fracOk : List Char → Bool
  | [] => true
  | c :: t =>
    if c = '.' then
      !(t.takeWhile digitB).isEmpty && expoOk (t.dropWhile digitB)
    else expoOk (c :: t)

/-- Integer part of a number lexeme: `0`, or a nonzero digit followed by
digits; no leading zeros. -/
def intOk : List Char → Bool
  | [] => false
  | c :: t =>
    if c = '0' then fracOk t
    else if digitB c then fracOk (t.dropWhile digitB)
    else false

/-- The JSON number grammar: optional minus sign, integer part, optional
fraction, optional exponent. -/
def numOk : List Char → Bool
  | [] => false
  | c :: t => if c = '-' then intOk t else intOk (c :: t)

mutual
/-- Well-formedness of a JSON value: every number lexeme matches the JSON
number grammar. Parsing only produces well-formed values. -/
def wfB : JVal → Bool
  | .jnull => true
  | .jbool _ => true
  | .jstr _ => true
  | .jnum l => numOk l.data
  | .jarr es => wfL es
  | .jobj fs => wfF fs

def wfL : List JVal → Bool
  | [] => true
  | v :: t => wfB v && wfL t

def wfF : List (String × JVal) → Bool
  | [] => true
  | f :: t => wfB f.2 && wfF t
end

end RuleEngine

namespace RuleEngine

/-! ### Printing (`JSON.stringify(·, null, 2)`) -/

def spaces : Nat → List Char
  | 0 => []
  | n + 1 => ' ' :: spaces n

/-- Lower-case hex digit for a value below 16. -/
def hexDigit (n : Nat) : Char := if n < 10 then Char.ofNat (48 + n) else Char.ofNat (87 + n)

/-- Escape of one character inside a string literal, as emitted by
`JSON.stringify`: short escapes for quote, backslash and the common control
characters, `\u00XX` for the remaining control characters. -/
def escChar (c : Char) : List Char :=
  if c = '"' then ['\\', '"']
  else if c = '\\' then ['\\', '\\']
  else if c = '\n' then ['\\', 'n']
  else if c = '\t' then ['\\', 't']
  else if c = '\r' then ['\\', 'r']
  else if c.toNat = 8 then ['\\', 'b']
  else if c.toNat = 12 then ['\\', 'f']
  else if c.toNat < 32 then ['\\', 'u', '0', '0', hexDigit (c.toNat / 16), hexDigit (c.toNat % 16)]
  else [c]

def escStr : List Char → List Char
  | [] => []
  | c :: t => escChar c ++ escStr t

def quoteStr (s : String) : List Char := '"' :: (escStr s.data ++ ['"'])

mutual
/-- `JSON.stringify(v, null, 2)` at current indentation `ind`, as a character
list. -/
def printV : JVal → Nat → List Char
  | .jnull, _ => ['n', 'u', 'l', 'l']
  | .jbool true, _ => ['t', 'r', 'u', 'e']
  | .jbool false, _ => ['f', 'a', 'l', 's', 'e']
  | .jnum l, _ => l.data
  | .jstr s, _ => quoteStr s
  | .jarr [], _ => ['[', ']']
  | .jarr (v :: vs), ind =>
    '[' :: '\n' :: (spaces (ind + 2) ++ (printV v (ind + 2) ++ (printItems vs (ind + 2) ++
      '\n' :: (spaces ind ++ [']']))))
  | .jobj [], _ => ['{', '}']
  | .jobj (f :: fs), ind =>
    '{' :: '\n' :: (spaces (ind + 2) ++ (printField f (ind + 2) ++ (printFields fs (ind + 2) ++
      '\n' :: (spaces ind ++ ['}']))))

def printItems : List JVal → Nat → List Char
  | [], _ => []
  | v :: vs, ind => ',' :: '\n' :: (spaces ind ++ (printV v ind ++ printItems vs ind))

def printField : String × JVal → Nat → List Char
  | (k, v), ind => quoteStr k ++ (':' :: ' ' :: printV v ind)

def printFields : List (String × JVal) → Nat → List Char
  | [], _ => []
  | f :: fs, ind => ',' :: '\n' :: (spaces ind ++ (printField f ind ++ printFields fs ind))
end

/-- `JSON.stringify(v, null, 2)` as a string. -/
def stringify2 (v : JVal) : String := ⟨printV v 0⟩

/-! ### Parsing (`JSON.parse`) -/

def hexVal (c : Char) : Option Nat :=
  if '0' ≤ c ∧ c ≤ '9' then some (c.toNat - 48)
  else if 'a' ≤ c ∧ c ≤ 'f' then some (c.toNat - 87)
  else if 'A' ≤ c ∧ c ≤ 'F' then some (c.toNat - 55)
  else none

def mapCons (c : Char) : Option (List Char × List Char) → Option (List Char × List Char)
  | some (cs, r) => some (c :: cs, r)
  | none => none

/-- Body of a string literal after the opening quote: unescapes until the
closing quote, rejecting raw control characters and bad escapes. -/
def parseStrBody : List Char → Option (List Char × List Char)
  | [] => none
  | c :: t =>
    if c = '"' then some ([], t)
    else if c = '\\' then
      match t with
      | [] => none
      | e :: t1 =>
        if e = '"' then mapCons '"' (parseStrBody t1)
        else if e = '\\' then mapCons '\\' (parseStrBody t1)
        else if e = '/' then mapCons '/' (parseStrBody t1)
        else if e = 'b' then mapCons (Char.ofNat 8) (parseStrBody t1)
        else if e = 'f' then mapCons (Char.ofNat 12) (parseStrBody t1)
        else if e = 'n' then mapCons '\n' (parseStrBody t1)
        else if e = 'r' then mapCons '\r' (parseStrBody t1)
        else if e = 't' then mapCons '\t' (parseStrBody t1)
        else if e = 'u' then
          match t1 with
          | h1 :: h2 :: h3 :: h4 :: t2 =>
            match hexVal h1, hexVal h2, hexVal h3, hexVal h4 with
            | some a, some b, some c2, some d =>
              mapCons (Char.ofNat (((a * 16 + b) * 16 + c2) * 16 + d)) (parseStrBody t2)
            | _, _, _, _ => none
          | _ => none
        else none
    else if c.toNat < 32 then none
    else mapCons c (parseStrBody t)

/-- Maximal-munch number: the span of number characters must match the JSON
number grammar. -/
def parseNum (l : List Char) : Option (JVal × List Char) :=
  let span := l.takeWhile numCont
  if numOk span then some (.jnum ⟨span⟩, l.dropWhile numCont) else none

def parseStrTail (t : List Char) : Option (JVal × List Char) :=
  match parseStrBody t with
  | some (cs, r) => some (.jstr ⟨cs⟩, r)
  | none => none

mutual
/-- One JSON value, leading whitespace already skipped; `fuel` bounds the
recursion depth. -/
def parseV : Nat → List Char → Option (JVal × List Char)
  | 0, _ => none
  | fuel + 1, l =>
    match l with
    | [] => none
    | c :: t =>
      if c = 'n' then
        match t with
        | 'u' :: 'l' :: 'l' :: t1 => some (.jnull, t1)
        | _ => none
      else if c = 't' then
        match t with
        | 'r' :: 'u' :: 'e' :: t1 => some (.jbool true, t1)
        | _ => none
      else if c = 'f' then
        match t with
        | 'a' :: 'l' :: 's' :: 'e' :: t1 => some (.jbool false, t1)
        | _ => none
      else if c = '"' then parseStrTail t
      else if c = '[' then
        let t1 := skipWs t
        if t1.head? = some ']' then some (.jarr [], t1.tail)
        else
          match parseV fuel t1 with
          | some (v, r) =>
            match parseItems fuel (skipWs r) with
            | some (vs, r2) => some (.jarr (v :: vs), r2)
            | none => none
          | none => none
      else if c = '{' then
        let t1 := skipWs t
        if t1.head? = some '}' then some (.jobj [], t1.tail)
        else
          match parseMember fuel t1 with
          | some (f, r) =>
            match parseMembers fuel (skipWs r) with
            | some (fs, r2) => some (.jobj (f :: fs), r2)
            | none => none
          | none => none
      else parseNum (c :: t)

/-- Continuation of an array after its first element: `,` element ... `]`,
leading whitespace already skipped. -/
def parseItems : Nat → List Char → Option (List JVal × List Char)
  | 0, _ => none
  | fuel + 1, l =>
    match l with
    | [] => none
    | c :: t =>
      if c = ']' then some ([], t)
      else if c = ',' then
        match parseV fuel (skipWs t) with
        | some (v, r) =>
          match parseItems fuel (skipWs r) with
          | some (vs, r2) => some (v :: vs, r2)
          | none => none
        | none => none
      else none

/-- One `"key": value` member, leading whitespace already skipped. -/
def parseMember : Nat → List Char → Option ((String × JVal) × List Char)
  | 0, _ => none
  | fuel + 1, l =>
    match l with
    | [] => none
    | c :: t =>
      if c = '"' then
        match parseStrBody t with
        | some (k, r) =>
          match skipWs r with
          | ':' :: r2 =>
            match parseV fuel (skipWs r2) with
            | some (v, r3) => some ((⟨k⟩, v), r3)
            | none => none
          | _ => none
        | none => none
      else none

/-- Continuation of an object after its first member. -/
def parseMembers : Nat → List Char → Option (List (String × JVal) × List Char)
  | 0, _ => none
  | fuel + 1, l =>
    match l with
    | [] => none
    | c :: t =>
      if c = '}' then some ([], t)
      else if c = ',' then
        match parseMember fuel (skipWs t) with
        | some (f, r) =>
          match parseMembers fuel (skipWs r) with
          | some (fs, r2) => some (f :: fs, r2)
          | none => none
        | none => none
      else none
end

/-- `JSON.parse`: whole input must be one JSON value surrounded by
whitespace. -/
def jsonParse (s : String) : Option JVal :=
  match parseV (s.length + 1) (skipWs s.data) with
  | some (v, rest) => if skipWs rest = [] then some v else none
  | none => none

example : jsonParse "null" = some .jnull := rfl
example : jsonParse " [1, 2] " = some (.jarr [.jnum "1", .jnum "2"]) := rfl
example : jsonParse "\x7b\"a\": 1\x7d" = some (.jobj [("a", .jnum "1")]) := rfl
example : jsonParse "\x7b\"a\": 1" = none := rfl
example : jsonParse "01" = none := rfl
example : jsonParse "-2.5e+3" = some (.jnum "-2.5e+3") := rfl
example : jsonParse "\"a\\nb\"" = some (.jstr "a\nb") := rfl
example : stringify2 (.jobj [("a", .jarr [.jnum "1"])]) = "\x7b\n  \"a\": [\n    1\n  ]\n\x7d" := rfl
example : jsonParse "\x7b\n  \"a\": [\n    1\n  ]\n\x7d" = some (.jobj [("a", .jarr [.jnum "1"])]) := rfl

/-! ## Core engine

Modelled from the spec: the backend engine (`Tokenizer`, `Parser`,
`Combinator` of sections 4.1, 4.2 and 4.4) lives in `backend/main.py`, which
is not part of the repository sources; the definitions below follow the
spec's algorithm text. -/

/-- Logical connective of an operator node. -/
inductive Conn where
  | and
  | or
deriving DecidableEq

/-- Literal operand of a comparison, keeping its lexeme. -/
inductive RLit where
  | num (lexeme : String)
  | str (content : String)
deriving DecidableEq

/-- AST node: a strict binary tree of operator nodes over operand leaves. -/
inductive RuleAST where
  | opNode (conn : Conn) (left right : RuleAST)
  | operand (field : String) (comparator : String) (lit : RLit)
deriving DecidableEq

/-- Lexical token of a rule string. -/
inductive RToken where
  | ident (s : String)
  | num (s : String)
  | str (s : String)
  | cmp (s : String)
  | logicalAnd
  | logicalOr
  | lparen
  | rparen
deriving DecidableEq

def isWordChar (c : Char) : Bool := c.isAlpha || c = '_'

/-- Character-wise lower-casing. -/
def lowerStr (s : String) : String := ⟨s.data.map Char.toLower⟩

/-- Modelled from the spec: a run of letters/underscores is compared
case-insensitively against the keywords `AND`, `OR`; otherwise it is an
identifier. -/
def classifyWord (w : String) : RToken :=
  if lowerStr w = "and" then .logicalAnd
  else if lowerStr w = "or" then .logicalOr
  else .ident w

/-- A run of digits with at most one decimal point. -/
def takeNumber (l : List Char) : List Char × List Char :=
  let ds := l.takeWhile digitB
  match l.dropWhile digitB with
  | '.' :: t =>
    let ds2 := t.takeWhile digitB
    (ds ++ '.' :: ds2, t.dropWhile digitB)
  | rest => (ds, rest)

/-- Modelled from the spec: the tokenizer's single left-to-right scan
(section 4.1); `pos` is the current character position, reported with bad
characters and unterminated strings. -/
def tokenizeGo : Nat → List Char → Nat → Except String (List RToken)
  | 0, _, _ => .error "fuel exhausted"
  | _ + 1, [], _ => .ok []
  | fuel + 1, c :: t, pos =>
    if isWs c then tokenizeGo fuel t (pos + 1)
    else if digitB c then
      let (ds, rest) := takeNumber (c :: t)
      match tokenizeGo fuel rest (pos + ds.length) with
      | .ok toks => .ok (.num ⟨ds⟩ :: toks)
      | .error e => .error e
    else if c = '\'' || c = '"' then
      let content := t.takeWhile (fun d => d ≠ c)
      match t.dropWhile (fun d => d ≠ c) with
      | _ :: rest =>
        match tokenizeGo fuel rest (pos + content.length + 2) with
        | .ok toks => .ok (.str ⟨content⟩ :: toks)
        | .error e => .error e
      | [] => .error ("unterminated string literal starting at position " ++ toString pos)
    else if isWordChar c then
      let w := (c :: t).takeWhile isWordChar
      match tokenizeGo fuel ((c :: t).dropWhile isWordChar) (pos + w.length) with
      | .ok toks => .ok (classifyWord ⟨w⟩ :: toks)
      | .error e => .error e
    else if c = '>' || c = '<' || c = '=' then
      match t with
      | '=' :: rest =>
        if c = '>' || c = '<' then
          match tokenizeGo fuel rest (pos + 2) with
          | .ok toks => .ok (.cmp ⟨[c, '=']⟩ :: toks)
          | .error e => .error e
        else
          match tokenizeGo fuel t (pos + 1) with
          | .ok toks => .ok (.cmp ⟨[c]⟩ :: toks)
          | .error e => .error e
      | _ =>
        match tokenizeGo fuel t (pos + 1) with
        | .ok toks => .ok (.cmp ⟨[c]⟩ :: toks)
        | .error e => .error e
    else if c = '(' then
      match tokenizeGo fuel t (pos + 1) with
      | .ok toks => .ok (.lparen :: toks)
      | .error e => .error e
    else if c = ')' then
      match tokenizeGo fuel t (pos + 1) with
      | .ok toks => .ok (.rparen :: toks)
      | .error e => .error e
    else .error ("unrecognized character " ++ ⟨[c]⟩ ++ " at position " ++ toString pos)

def tokenize (ruleString : String) : Except String (List RToken) :=
  tokenizeGo (ruleString.length + 1) ruleString.data 0

mutual
/-- Modelled from the spec: `Expression := Primary ((AND | OR) Primary)*`,
left-leaning chain of operator nodes (section 4.2). -/
def parseExprGo : Nat → List RToken → Except String (RuleAST × List RToken)
  | 0, _ => .error "fuel exhausted"
  | fuel + 1, toks =>
    match parsePrimary fuel toks with
    | .ok (first, rest) => parseChain fuel first rest
    | .error e => .error e

/-- The `((AND | OR) Primary)*` tail, folding left. -/
def parseChain : Nat → RuleAST → List RToken → Except String (RuleAST × List RToken)
  | 0, _, _ => .error "fuel exhausted"
  | fuel + 1, acc, toks =>
    match toks with
    | .logicalAnd :: rest =>
      match parsePrimary fuel rest with
      | .ok (nxt, rest2) => parseChain fuel (.opNode .and acc nxt) rest2
      | .error e => .error e
    | .logicalOr :: rest =>
      match parsePrimary fuel rest with
      | .ok (nxt, rest2) => parseChain fuel (.opNode .or acc nxt) rest2
      | .error e => .error e
    | _ => .ok (acc, toks)

/-- `Primary := LPAREN Expression RPAREN | Comparison`. -/
def parsePrimary : Nat → List RToken → Except String (RuleAST × List RToken)
  | 0, _ => .error "fuel exhausted"
  | fuel + 1, toks =>
    match toks with
    | .lparen :: rest =>
      match parseExprGo fuel rest with
      | .ok (inner, .rparen :: rest2) => .ok (inner, rest2)
      | .ok (_, _) => .error "expected closing parenthesis"
      | .error e => .error e
    | .ident f :: .cmp op :: .num n :: rest => .ok (.operand f op (.num n), rest)
    | .ident f :: .cmp op :: .str s :: rest => .ok (.operand f op (.str s), rest)
    | _ => .error "expected comparison or parenthesized expression"
end

/-- Modelled from the spec: `parse(tokens) -> AST root`, failing when
trailing tokens remain (section 4.2). -/
def parseRule (toks : List RToken) : Except String RuleAST :=
  match parseExprGo (2 * toks.length + 1) toks with
  | .ok (ast, []) => .ok ast
  | .ok (_, _ :: _) => .error "trailing tokens after expression"
  | .error e => .error e

example : tokenize "age > 30" = .ok [.ident "age", .cmp ">", .num "30"] := rfl
example : (tokenize "age > 30").bind parseRule = .ok (.operand "age" ">" (.num "30")) := rfl
example : (tokenize "age > 30 AND department = 'Sales'").bind parseRule =
    .ok (.opNode .and (.operand "age" ">" (.num "30"))
      (.operand "department" "=" (.str "Sales"))) := rfl
example : (tokenize "a > 1 and b < 2").bind parseRule =
    .ok (.opNode .and (.operand "a" ">" (.num "1")) (.operand "b" "<" (.num "2"))) := rfl

/-- Validation failure of the combinator. -/
inductive ValidationError where
  | fewerThanTwoRules
deriving DecidableEq

/-- Modelled from the spec: `combine(roots, connective)` requires at least
two roots and folds them left-to-right into a chain of new operator nodes
(section 4.4). -/
def combine (roots : List RuleAST) (connective : Conn) : Except ValidationError RuleAST :=
  match roots with
  | a :: b :: rest => .ok (rest.foldl (fun acc r => .opNode connective acc r) (.opNode connective a b))
  | _ => .error .fewerThanTwoRules

/-! ## Frontend state model (`RuleBuilder.tsx`)

The React component's state hooks become fields of `UIState`; each event
handler becomes a pure function from the backend's responses (`Backend`) and
the current state to the next state together with the list of HTTP requests
it issued. -/

/-- A stored rule as held in the component's `rules` list. -/
structure Rule where
  rule_id : Option Nat
  name : String
  description : String
  rule_string : String
  ast : Option RuleAST
deriving DecidableEq

/-- The `CombineRuleData` interface. -/
structure CombineRuleData where
  rules : List Nat
  operator : Conn
  name : String
  description : String
deriving DecidableEq

inductive ConnStatus where
  | connected
  | disconnected
deriving DecidableEq

/-- The component's state hooks. -/
structure UIState where
  rules : List Rule
  newRule : Rule
  evaluationData : String
  evaluationResults : List (Nat × Bool)
  error : String
  showDialog : Bool
  showCombineDialog : Bool
  isSubmitting : Bool
  isLoading : Bool
  connectionStatus : ConnStatus
  selectedRules : List Nat
  combineRuleData : CombineRuleData
  batchData : String
  batchResults : List JVal

/-- One HTTP request issued against the backend. -/
inductive Request where
  | health
  | getRules
  | postCreate (name description rule_string : String)
  | deleteReq (id : Nat)
  | postCombine (ruleIds : List Nat) (operator : Conn) (name description : String)
  | postEvaluate (id : Nat) (data : JVal)
  | postBatch (ruleIds : List (Option Nat)) (dataList : List JVal)

/-- Backend behaviour during one handler invocation. `health` is whether the
`/health` probe succeeds; each `Except` is the outcome of the corresponding
endpoint, an `error` being the message the handler's `throw` produces for a
network failure or a non-ok response. -/
structure Backend where
  health : Bool
  rulesResp : Except String (List Rule)
  createResp : Except String Unit
  deleteResp : Except String Unit
  combineResp : Except String Unit
  evalResp : Except String Bool
  batchResp : Except String (List JVal)

/-- JS `String.prototype.includes`: `leadEq n h` is `n` being an initial
segment of `h`. -/
def leadEq : List Char → List Char → Bool
  | [], _ => true
  | _ :: _, [] => false
  | a :: as, b :: bs => a = b && leadEq as bs

def subList (needle : List Char) : List Char → Bool
  | [] => needle.isEmpty
  | c :: t => leadEq needle (c :: t) || subList needle t

/-- `hay.includes(needle)`. -/
def hasSub (hay needle : String) : Bool := subList needle.data hay.data

/-- JS `String.prototype.trim` (over the ASCII whitespace the claims use). -/
def jsTrim (s : String) : String :=
  ⟨(s.data.dropWhile isWs).reverse.dropWhile isWs |>.reverse⟩

/-- `validateRule` (`RuleBuilder.tsx` lines 127-137): the thrown message, if
any. -/
def validateRule (rule : Rule) : Except String Unit :=
  if jsTrim rule.name = "" then .error "Rule name is required"
  else if jsTrim rule.rule_string = "" then .error "Rule expression is required"
  else if !hasSub rule.rule_string "AND" && !hasSub rule.rule_string "OR" then
    .error "Rule must contain at least one operator (AND/OR)"
  else .ok ()

/-- Is the parsed value a JS `object` other than `null`, i.e. a JSON object
or array? -/
def isObjOrArr : JVal → Bool
  | .jobj _ => true
  | .jarr _ => true
  | _ => false

def isArr : JVal → Bool
  | .jarr _ => true
  | _ => false

/-- `validateJsonData` (lines 69-87): returns the boolean result and the
state with any error message recorded. -/
def validateJsonData (jsonString : String) (s : UIState) : Bool × UIState :=
  if jsTrim jsonString = "" then
    (false, {s with error := "Evaluation data cannot be empty"})
  else
    match jsonParse jsonString with
    | none => (false, {s with error := "Invalid JSON format. Please check your input."})
    | some parsed =>
      if isObjOrArr parsed then (true, s)
      else (false, {s with error := "Data must be a JSON object or array"})

/-- `checkBackendConnection` (lines 89-102): result, next state, requests. -/
def checkBackendConnection (env : Backend) (s : UIState) : Bool × UIState × List Request :=
  if env.health then (true, {s with connectionStatus := .connected}, [.health])
  else
    (false,
     {s with connectionStatus := .disconnected,
             error := "Cannot connect to backend server. Please ensure it is running at http://localhost:8000"},
     [.health])

/-- `fetchRules` (lines 103-121). -/
def fetchRules (env : Backend) (s : UIState) : UIState × List Request :=
  let s1 := {s with isLoading := true}
  let (connected, s2, reqs) := checkBackendConnection env s1
  if !connected then ({s2 with isLoading := false}, reqs)
  else
    match env.rulesResp with
    | .error msg =>
      ({s2 with error := "Failed to fetch rules: " ++ msg, isLoading := false}, reqs ++ [.getRules])
    | .ok data =>
      ({s2 with rules := data, error := "", isLoading := false}, reqs ++ [.getRules])

def emptyNewRule : Rule := ⟨none, "", "", "", none⟩

/-- `createRule` (lines 139-174). -/
def createRule (env : Backend) (s : UIState) : UIState × List Request :=
  let s1 := {s with isSubmitting := true, error := ""}
  let (connected, s2, reqs) := checkBackendConnection env s1
  if !connected then ({s2 with isSubmitting := false}, reqs)
  else
    match validateRule s2.newRule with
    | .error msg => ({s2 with error := msg, isSubmitting := false}, reqs)
    | .ok () =>
      let req := Request.postCreate (jsTrim s2.newRule.name) (jsTrim s2.newRule.description)
        (jsTrim s2.newRule.rule_string)
      match env.createResp with
      | .error msg => ({s2 with error := msg, isSubmitting := false}, reqs ++ [req])
      | .ok () =>
        let (s3, reqs2) := fetchRules env s2
        ({s3 with newRule := emptyNewRule, showDialog := false, isSubmitting := false},
         reqs ++ req :: reqs2)

/-- `deleteRule` (lines 176-191). -/
def deleteRule (env : Backend) (s : UIState) (ruleId : Nat) : UIState × List Request :=
  match env.deleteResp with
  | .error msg => ({s with error := msg}, [.deleteReq ruleId])
  | .ok () =>
    let (s1, reqs) := fetchRules env s
    ({s1 with selectedRules := s.selectedRules.filter (fun id => id ≠ ruleId)},
     .deleteReq ruleId :: reqs)

/-- `combineRules` (lines 193-223). -/
def combineRules (env : Backend) (s : UIState) : UIState × List Request :=
  let s1 := {s with error := ""}
  let req := Request.postCombine s1.selectedRules s1.combineRuleData.operator
    s1.combineRuleData.name s1.combineRuleData.description
  match env.combineResp with
  | .error msg => ({s1 with error := msg}, [req])
  | .ok () =>
    let (s2, reqs) := fetchRules env s1
    ({s2 with showCombineDialog := false, selectedRules := [],
              combineRuleData := ⟨[], .and, "", ""⟩},
     req :: reqs)

/-- JS object-spread update `{...results, [k]: b}`. -/
def setKey : List (Nat × Bool) → Nat → Bool → List (Nat × Bool)
  | [], k, b => [(k, b)]
  | (k1, b1) :: t, k, b => if k1 = k then (k, b) :: t else (k1, b1) :: setKey t k b

/-- `evaluateRule` (lines 225-256). The second `JSON.parse` of the already
validated data cannot fail; its dead failure branch surfaces the catch-all
message. -/
def evaluateRule (env : Backend) (s : UIState) (ruleId : Nat) : UIState × List Request :=
  let s1 := {s with error := ""}
  let (connected, s2, reqs) := checkBackendConnection env s1
  if !connected then (s2, reqs)
  else
    let (valid, s3) := validateJsonData s2.evaluationData s2
    if !valid then (s3, reqs)
    else
      match jsonParse s3.evaluationData with
      | none => ({s3 with error := "Failed to evaluate rule"}, reqs)
      | some parsedData =>
        match env.evalResp with
        | .error msg => ({s3 with error := msg}, reqs ++ [.postEvaluate ruleId parsedData])
        | .ok result =>
          ({s3 with evaluationResults := setKey s3.evaluationResults ruleId result},
           reqs ++ [.postEvaluate ruleId parsedData])

/-- `evaluateBatch` (lines 258-289). As in `evaluateRule`, the re-parse of
the validated data cannot fail. -/
def evaluateBatch (env : Backend) (s : UIState) : UIState × List Request :=
  let (valid, s1) := validateJsonData s.batchData s
  if !valid then (s1, [])
  else
    match jsonParse s1.batchData with
    | none => ({s1 with error := "Failed to evaluate batch"}, [])
    | some dataList =>
      match dataList with
      | .jarr items =>
        let req := Request.postBatch (s1.rules.map (fun r => r.rule_id)) items
        match env.batchResp with
        | .error msg => ({s1 with error := msg}, [req])
        | .ok results => ({s1 with batchResults := results}, [req])
      | _ => ({s1 with error := "Batch data must be an array of objects"}, [])

/-- `formatJsonInput` (lines 291-299). -/
def formatJsonInput (s : UIState) : UIState :=
  match jsonParse s.evaluationData with
  | some parsed => {s with evaluationData := stringify2 parsed, error := ""}
  | none => {s with error := "Invalid JSON format. Unable to format."}

/-- The `disabled` condition of the Combine Selected Rules button
(line 711). -/
def combineButtonDisabled (s : UIState) : Bool := s.selectedRules.length < 2

example : hasSub "age > 30" "AND" = false := rfl
example : hasSub "a AND b" "AND" = true := rfl
example : hasSub "a and b" "AND" = false := rfl
example : jsTrim "  x " = "x" := rfl

/-! ## AST visualizer (`ASTVisualizer` / `buildGraph`, lines 301-363)

The visualizer receives the serialized AST (a JSON object with `type`,
`value` and optional `left`/`right` children); `VAst` is that shape. -/

/-- A serialized AST node as the visualizer reads it. -/
inductive VAst where
  | mk (type : String) (value : String) (left : Option VAst) (right : Option VAst)

def VAst.type : VAst → String
  | .mk ty _ _ _ => ty

def VAst.value : VAst → String
  | .mk _ v _ _ => v

def VAst.left : VAst → Option VAst
  | .mk _ _ l _ => l

def VAst.right : VAst → Option VAst
  | .mk _ _ _ r => r

/-- Strict binary shape: each node has either both children or neither. -/
def strictBinary : VAst → Bool
  | .mk _ _ (some l) (some r) => strictBinary l && strictBinary r
  | .mk _ _ none none => true
  | .mk _ _ _ _ => false

/-- Number of nodes. -/
def vastSize : VAst → Nat
  | .mk _ _ l r =>
    1 + (match l with | some x => vastSize x | none => 0)
      + (match r with | some x => vastSize x | none => 0)

/-- A React Flow node as pushed by `buildGraph`. -/
structure GNode where
  id : String
  posX : Int
  posY : Int
  label : String

/-- A React Flow edge as pushed by `buildGraph`. -/
structure GEdge where
  id : String
  source : String
  target : String

/-- `buildGraph` (lines 306-344): node id from the parent chain, one node
per AST node, one edge per present child; the JS `node.value || node.type`
label falls back on the type for an empty value. -/
def buildGraph : VAst → Option String → Int × Int → List GNode × List GEdge
  | .mk ty v lopt ropt, parentId, pos =>
    let nodeId := match parentId with
      | some p => p ++ "-" ++ ty
      | none => "root"
    let self : GNode := ⟨nodeId, pos.1, pos.2, if v = "" then ty else v⟩
    let leftPart : List GNode × List GEdge :=
      match lopt with
      | some l =>
        let res := buildGraph l (some (nodeId ++ "-left")) (pos.1 - 100, pos.2 + 100)
        (res.1, res.2 ++ [⟨nodeId ++ "-left", nodeId, nodeId ++ "-left-" ++ l.type⟩])
      | none => ([], [])
    let rightPart : List GNode × List GEdge :=
      match ropt with
      | some r =>
        let res := buildGraph r (some (nodeId ++ "-right")) (pos.1 + 100, pos.2 + 100)
        (res.1, res.2 ++ [⟨nodeId ++ "-right", nodeId, nodeId ++ "-right-" ++ r.type⟩])
      | none => ([], [])
    (self :: (leftPart.1 ++ rightPart.1), leftPart.2 ++ rightPart.2)

/-! ## Concrete states for witnesses -/

/-- The initial hook values of the component (lines 43-67). -/
def initialState : UIState where
  rules := []
  newRule := emptyNewRule
  evaluationData := ""
  evaluationResults := []
  error := ""
  showDialog := false
  showCombineDialog := false
  isSubmitting := false
  isLoading := true
  connectionStatus := .disconnected
  selectedRules := []
  combineRuleData := ⟨[], .and, "", ""⟩
  batchData := ""
  batchResults := []

/-- A healthy backend where every endpoint succeeds trivially. -/
def envOk : Backend := ⟨true, .ok [], .ok (), .ok (), .ok (), .ok true, .ok []⟩

/-- A backend whose health probe fails. -/
def envDown : Backend := ⟨false, .ok [], .ok (), .ok (), .ok (), .ok true, .ok []⟩

/-! ## Shared helper lemmas -/

/-- `validateRule` rejects exactly the rule strings containing neither of
the case-sensitive substrings `AND`, `OR` (given nonempty name and
expression). -/
theorem validateRule_no_op_error (r : Rule) (hname : jsTrim r.name ≠ "")
    (hex : jsTrim r.rule_string ≠ "")
    (hA : hasSub r.rule_string "AND" = false) (hO : hasSub r.rule_string "OR" = false) :
    validateRule r = .error "Rule must contain at least one operator (AND/OR)" := by
  unfold validateRule
  rw [if_neg hname, if_neg hex, hA, hO]
  rfl

/-! ## Claims -/

/-- C1: combining rules requires at least two inputs. The spec-modelled
`combine` fails with a `ValidationError` on fewer than two roots, and the
client's Combine Selected Rules button is disabled while fewer than two
rules are selected. -/
theorem combine_requires_two (roots : List RuleAST) (conn : Conn) (s : UIState)
    (h1 : roots.length < 2) (h2 : s.selectedRules.length < 2) :
    combine roots conn = .error .fewerThanTwoRules ∧ combineButtonDisabled s = true := by
  constructor
  · match roots, h1 with
    | [], _ => rfl
    | [a], _ => rfl
    | a :: b :: t, h1 => simp at h1; omega
  · simpa [combineButtonDisabled] using h2

theorem combine_requires_two_witness :
    ([] : List RuleAST).length < 2 ∧ initialState.selectedRules.length < 2 ∧
      (combine [] .and = .error .fewerThanTwoRules ∧ combineButtonDisabled initialState = true) :=
  ⟨by decide, by decide, combine_requires_two [] .and initialState (by decide) (by decide)⟩

/-- C2 counterexample: `age > 30` is a single comparison and a valid
Expression of the spec's grammar, yet `validateRule` rejects the rule even
with a non-empty name, because the rule string contains neither `AND` nor
`OR`. -/
theorem single_comparison_rejected_cex :
    (tokenize "age > 30").bind parseRule = .ok (.operand "age" ">" (.num "30")) ∧
      validateRule ⟨none, "r", "", "age > 30", none⟩ =
        .error "Rule must contain at least one operator (AND/OR)" :=
  ⟨rfl, rfl⟩

/-- C2 (amended): a single comparison is a valid Expression of the grammar,
but creation validation requires the case-sensitive substring `AND` or `OR`
in the rule string, so every rule whose expression contains neither — in
particular a single comparison — is rejected with the operator message even
when its name is non-empty. -/
theorem single_comparison_validation (r : Rule) (hname : jsTrim r.name ≠ "")
    (hex : jsTrim r.rule_string ≠ "")
    (hA : hasSub r.rule_string "AND" = false) (hO : hasSub r.rule_string "OR" = false) :
    validateRule r = .error "Rule must contain at least one operator (AND/OR)" ∧
      (tokenize "age > 30").bind parseRule = .ok (.operand "age" ">" (.num "30")) :=
  ⟨validateRule_no_op_error r hname hex hA hO, rfl⟩

theorem single_comparison_validation_witness :
    jsTrim (Rule.mk none "r" "" "age > 30" none).name ≠ "" ∧
      jsTrim (Rule.mk none "r" "" "age > 30" none).rule_string ≠ "" ∧
      hasSub (Rule.mk none "r" "" "age > 30" none).rule_string "AND" = false ∧
      hasSub (Rule.mk none "r" "" "age > 30" none).rule_string "OR" = false ∧
      (validateRule (Rule.mk none "r" "" "age > 30" none) =
          .error "Rule must contain at least one operator (AND/OR)" ∧
        (tokenize "age > 30").bind parseRule = .ok (.operand "age" ">" (.num "30"))) :=
  ⟨by decide, by decide, rfl, rfl,
    single_comparison_validation _ (by decide) (by decide) rfl rfl⟩

/-- C3 counterexample: with lowercase connectives the spec-modelled
tokenizer still recognizes the operators (`a > 1 and b < 2` parses to an AND
node), yet `validateRule` rejects the same rule string for lacking an
operator, because its substring check is case-sensitive. -/
theorem lowercase_connective_rejected_cex :
    (tokenize "a > 1 and b < 2").bind parseRule =
        .ok (.opNode .and (.operand "a" ">" (.num "1")) (.operand "b" "<" (.num "2"))) ∧
      validateRule ⟨none, "r", "", "a > 1 and b < 2", none⟩ =
        .error "Rule must contain at least one operator (AND/OR)" :=
  ⟨rfl, rfl⟩

/-- C3 (amended): the tokenizer's keyword recognition is case-insensitive
(any word lower-casing to `and`/`or` becomes the logical token), but the
client's creation validation checks the substrings `AND`/`OR`
case-sensitively, so a rule string whose connectives appear in lowercase is
rejected for lacking an operator. -/
theorem connective_case_handling (w : String) (r : Rule)
    (hw : lowerStr w = "and" ∨ lowerStr w = "or")
    (hname : jsTrim r.name ≠ "") (hex : jsTrim r.rule_string ≠ "")
    (hA : hasSub r.rule_string "AND" = false) (hO : hasSub r.rule_string "OR" = false) :
    (classifyWord w = .logicalAnd ∨ classifyWord w = .logicalOr) ∧
      validateRule r = .error "Rule must contain at least one operator (AND/OR)" := by
  refine ⟨?_, validateRule_no_op_error r hname hex hA hO⟩
  rcases hw with hw | hw
  · left; simp [classifyWord, hw]
  · right
    have hne : ¬lowerStr w = "and" := by
      intro h; rw [h] at hw; exact absurd hw (by decide)
    simp [classifyWord, hne, hw]

theorem connective_case_handling_witness :
    (lowerStr "and" = "and" ∨ lowerStr "and" = "or") ∧
      jsTrim (Rule.mk none "r" "" "a > 1 and b < 2" none).name ≠ "" ∧
      jsTrim (Rule.mk none "r" "" "a > 1 and b < 2" none).rule_string ≠ "" ∧
      hasSub "a > 1 and b < 2" "AND" = false ∧ hasSub "a > 1 and b < 2" "OR" = false ∧
      ((classifyWord "and" = .logicalAnd ∨ classifyWord "and" = .logicalOr) ∧
        validateRule (Rule.mk none "r" "" "a > 1 and b < 2" none) =
          .error "Rule must contain at least one operator (AND/OR)") :=
  ⟨Or.inl rfl, by decide, by decide, rfl, rfl,
    connective_case_handling "and" _ (Or.inl rfl) (by decide) (by decide) rfl rfl⟩

/-- The request trace of `createRule` always starts with the health probe. -/
theorem createRule_head (env : Backend) (s : UIState) :
    (createRule env s).2.head? = some .health := by
  rcases hv : validateRule s.newRule with m | u <;>
    rcases hc : env.createResp with m2 | u2 <;>
      rcases hr : env.rulesResp with m3 | u3 <;>
        by_cases h1 : env.health <;>
          simp [createRule, checkBackendConnection, fetchRules, h1, hv, hc, hr]

/-- The request trace of `evaluateRule` always starts with the health
probe. -/
theorem evaluateRule_head (env : Backend) (s : UIState) (ruleId : Nat) :
    (evaluateRule env s ruleId).2.head? = some .health := by
  unfold evaluateRule
  by_cases h1 : env.health <;>
    simp only [checkBackendConnection, h1, if_true, if_false, Bool.not_true, Bool.not_false,
      Bool.false_eq_true, reduceIte] <;>
    first
      | rfl
      | ((repeat' split) <;> simp)

/-- C7: a failed health check gates `createRule` and `evaluateRule`: both
send only the health probe (never the operation request), record the
connection error, and leave the rules list and the stored evaluation
results unchanged; and both always issue the health probe first. -/
theorem connectivity_gates_operations (env : Backend) (s : UIState) (ruleId : Nat)
    (h : env.health = false) :
    (createRule env s).2 = [.health] ∧
      (createRule env s).1.error =
        "Cannot connect to backend server. Please ensure it is running at http://localhost:8000" ∧
      (createRule env s).1.rules = s.rules ∧
      (createRule env s).1.evaluationResults = s.evaluationResults ∧
      (evaluateRule env s ruleId).2 = [.health] ∧
      (evaluateRule env s ruleId).1.error =
        "Cannot connect to backend server. Please ensure it is running at http://localhost:8000" ∧
      (evaluateRule env s ruleId).1.rules = s.rules ∧
      (evaluateRule env s ruleId).1.evaluationResults = s.evaluationResults ∧
      (∀ env1 : Backend, ((createRule env1 s).2.head? = some .health ∧
        (evaluateRule env1 s ruleId).2.head? = some .health)) := by
  refine ⟨?_, ?_, ?_, ?_, ?_, ?_, ?_, ?_,
    fun env1 => ⟨createRule_head env1 s, evaluateRule_head env1 s ruleId⟩⟩ <;>
    simp [createRule, evaluateRule, checkBackendConnection, h]

theorem connectivity_gates_operations_witness :
    envDown.health = false ∧
      ((createRule envDown initialState).2 = [.health] ∧
        (createRule envDown initialState).1.error =
          "Cannot connect to backend server. Please ensure it is running at http://localhost:8000" ∧
        (createRule envDown initialState).1.rules = initialState.rules ∧
        (createRule envDown initialState).1.evaluationResults = initialState.evaluationResults ∧
        (evaluateRule envDown initialState 1).2 = [.health] ∧
        (evaluateRule envDown initialState 1).1.error =
          "Cannot connect to backend server. Please ensure it is running at http://localhost:8000" ∧
        (evaluateRule envDown initialState 1).1.rules = initialState.rules ∧
        (evaluateRule envDown initialState 1).1.evaluationResults =
          initialState.evaluationResults ∧
        (∀ env1 : Backend, ((createRule env1 initialState).2.head? = some .health ∧
          (evaluateRule env1 initialState 1).2.head? = some .health))) :=
  ⟨rfl, connectivity_gates_operations envDown initialState 1 rfl⟩

/-- C10: after a successful delete, the deleted id is no longer selected and
every other id's selection membership is unchanged. -/
theorem deleted_rule_not_selected (env : Backend) (s : UIState) (ruleId : Nat)
    (h : env.deleteResp = .ok ()) :
    ruleId ∉ (deleteRule env s ruleId).1.selectedRules ∧
      ∀ x, x ≠ ruleId →
        (x ∈ (deleteRule env s ruleId).1.selectedRules ↔ x ∈ s.selectedRules) := by
  have hsel : (deleteRule env s ruleId).1.selectedRules =
      s.selectedRules.filter (fun id => id ≠ ruleId) := by
    simp [deleteRule, h]
  rw [hsel]
  constructor
  · intro hmem
    simp [List.mem_filter] at hmem
  · intro x hx
    simp [List.mem_filter, hx]

theorem deleted_rule_not_selected_witness :
    envOk.deleteResp = .ok () ∧
      (1 ∉ (deleteRule envOk {initialState with selectedRules := [1, 2]} 1).1.selectedRules ∧
        ∀ x, x ≠ 1 →
          (x ∈ (deleteRule envOk {initialState with selectedRules := [1, 2]} 1).1.selectedRules ↔
            x ∈ ({initialState with selectedRules := [1, 2]} : UIState).selectedRules)) :=
  ⟨rfl, deleted_rule_not_selected envOk {initialState with selectedRules := [1, 2]} 1 rfl⟩

/-! ## Record texts (spec side, for claims C4 and C5)

These definitions follow the spec's words — a Record is a mapping from
field names to values among number, string, boolean and null — and exist to
be compared with the code's checks. -/

/-- Primitive Record values per the spec. -/
def isPrimVal : JVal → Bool
  | .jnum _ => true
  | .jstr _ => true
  | .jbool _ => true
  | .jnull => true
  | _ => false

/-- A Record per the spec: a JSON object mapping field names to primitive
values. -/
def isRecordVal : JVal → Bool
  | .jobj fields => fields.all (fun f => isPrimVal f.2)
  | _ => false

/-- A text denoting a Record. -/
def isRecordText (s : String) : Bool :=
  match jsonParse s with
  | some v => isRecordVal v
  | none => false

/-- A text denoting a sequence of Records. -/
def isRecordListText (s : String) : Bool :=
  match jsonParse s with
  | some (.jarr es) => es.all isRecordVal
  | _ => false

/-- The boolean outcome of `validateJsonData`, which depends only on the
input text: nonempty after trimming, parses, and is a JS object (JSON
object or array). -/
def jsonAccepted (js : String) : Bool :=
  if jsTrim js = "" then false
  else
    match jsonParse js with
    | none => false
    | some v => isObjOrArr v

theorem validateJsonData_fst (js : String) (s : UIState) :
    (validateJsonData js s).1 = jsonAccepted js := by
  unfold validateJsonData jsonAccepted
  by_cases h : jsTrim js = "" <;> simp only [h, if_true, if_false, reduceIte]
  rcases hp : jsonParse js with _ | v <;> simp only []
  by_cases hv : isObjOrArr v = true <;> simp [hv]

theorem validateJsonData_false_error (js : String) (s : UIState)
    (h : jsonAccepted js = false) : (validateJsonData js s).2.error ≠ "" := by
  unfold validateJsonData
  unfold jsonAccepted at h
  by_cases h0 : jsTrim js = "" <;> simp only [h0, if_true, if_false, reduceIte] at h ⊢
  · simp
  · rcases hp : jsonParse js with _ | v <;> rw [hp] at h <;> simp only []
    · simp
    · have h1 : isObjOrArr v = false := h
      simp [h1]

theorem validateJsonData_true_state (js : String) (s : UIState)
    (h : jsonAccepted js = true) :
    validateJsonData js s = (true, s) ∧ ∃ v, jsonParse js = some v ∧ isObjOrArr v = true := by
  unfold validateJsonData
  unfold jsonAccepted at h
  by_cases h0 : jsTrim js = "" <;> simp only [h0, if_true, if_false, reduceIte] at h ⊢
  · exact absurd h (by simp)
  · rcases hp : jsonParse js with _ | v <;> rw [hp] at h
    · exact absurd h (by simp)
    · have h1 : isObjOrArr v = true := h
      refine ⟨?_, v, rfl, h1⟩
      simp [h1]

/-- The first element surviving `dropWhile` fails the predicate. -/
theorem dropWhile_head_not {α : Type} (p : α → Bool) :
    ∀ (l t : List α) (c : α), l.dropWhile p = c :: t → p c = false := by
  intro l
  induction l with
  | nil => intro t c h; simp [List.dropWhile] at h
  | cons a l ih =>
    intro t c h
    rw [List.dropWhile_cons] at h
    by_cases ha : p a = true
    · rw [if_pos ha] at h
      exact ih t c h
    · rw [if_neg ha] at h
      cases h
      simpa using ha

/-- A string whose JS-trim is empty is all whitespace and cannot parse. -/
theorem jsTrim_empty_parse_none (js : String) (h : jsTrim js = "") :
    jsonParse js = none := by
  have hdrop : js.data.dropWhile isWs = [] := by
    have hdata : ((js.data.dropWhile isWs).reverse.dropWhile isWs).reverse = [] :=
      congrArg String.data h
    have h2 : (js.data.dropWhile isWs).reverse.dropWhile isWs = [] := by
      simpa using congrArg List.reverse hdata
    rcases hd : js.data.dropWhile isWs with _ | ⟨c, t⟩
    · rfl
    · exfalso
      have hcmem : c ∈ (js.data.dropWhile isWs).reverse := by simp [hd]
      have hws : isWs c = true := by
        have := List.dropWhile_eq_nil_iff.mp h2
        simpa using this c hcmem
      have hnws : isWs c = false := dropWhile_head_not isWs js.data t c hd
      rw [hws] at hnws
      exact absurd hnws (by simp)
  unfold jsonParse skipWs
  rw [hdrop]
  simp [parseV]

/-- Request trace and error shape of `evaluateRule` on a reachable backend,
by acceptance of the evaluation data. -/
theorem evaluateRule_shape (env : Backend) (s : UIState) (ruleId : Nat)
    (hh : env.health = true) :
    (jsonAccepted s.evaluationData = true →
      ∃ v, jsonParse s.evaluationData = some v ∧
        (evaluateRule env s ruleId).2 = [.health, .postEvaluate ruleId v]) ∧
    (jsonAccepted s.evaluationData = false →
      (evaluateRule env s ruleId).2 = [.health] ∧ (evaluateRule env s ruleId).1.error ≠ "") := by
  constructor
  · intro hacc
    obtain ⟨hstate, v, hv, hov⟩ := validateJsonData_true_state s.evaluationData
      {s with error := "", connectionStatus := .connected} hacc
    refine ⟨v, hv, ?_⟩
    rcases henv : env.evalResp with m | b <;>
      simp [evaluateRule, checkBackendConnection, hh, hstate, hv, henv]
  · intro hfac
    have herr := validateJsonData_false_error s.evaluationData
      ({s with error := "", connectionStatus := .connected} : UIState) hfac
    have hfalse : (validateJsonData s.evaluationData
        ({s with error := "", connectionStatus := .connected} : UIState)).1 = false := by
      rw [validateJsonData_fst]
      exact hfac
    constructor
    · simp [evaluateRule, checkBackendConnection, hh, hfalse]
    · simpa [evaluateRule, checkBackendConnection, hh, hfalse] using herr

/-- C4 counterexample: the array text `[1]` is not a Record text, yet
`validateJsonData` returns `true` on it and `evaluateRule` sends the
evaluation request for it. -/
theorem validateJsonData_accepts_array_cex :
    isRecordText "[1]" = false ∧
      (validateJsonData "[1]" initialState).1 = true ∧
      (evaluateRule envOk {initialState with evaluationData := "[1]"} 1).2 =
        [.health, .postEvaluate 1 (.jarr [.jnum "1"])] :=
  ⟨rfl, rfl, rfl⟩

/-- C4 (amended): `validateJsonData` returns true iff the trimmed string is
non-empty and parses as JSON to an object or array — the JS
`typeof`-object test also admits arrays, not only Record objects. When it
returns true (and the backend is reachable) `evaluateRule` sends the
evaluation request; when it returns false an error message is recorded and
no evaluation request is sent. -/
theorem validateJsonData_spec (js : String) (s : UIState) (env : Backend) (ruleId : Nat)
    (hh : env.health = true) :
    ((validateJsonData js s).1 = true ↔
      (jsTrim js ≠ "" ∧ ∃ v, jsonParse js = some v ∧ isObjOrArr v = true)) ∧
    ((validateJsonData js s).1 = false → (validateJsonData js s).2.error ≠ "") ∧
    (jsonAccepted s.evaluationData = true →
      ∃ v, jsonParse s.evaluationData = some v ∧
        (evaluateRule env s ruleId).2 = [.health, .postEvaluate ruleId v]) ∧
    (jsonAccepted s.evaluationData = false →
      (evaluateRule env s ruleId).2 = [.health] ∧ (evaluateRule env s ruleId).1.error ≠ "") := by
  refine ⟨?_, ?_, (evaluateRule_shape env s ruleId hh).1, (evaluateRule_shape env s ruleId hh).2⟩
  · rw [validateJsonData_fst]
    unfold jsonAccepted
    by_cases h0 : jsTrim js = ""
    · simp [h0]
    · rw [if_neg h0]
      rcases hp : jsonParse js with _ | v
      · simp
      · simp only []
        by_cases hv : isObjOrArr v = true <;> simp [hv, h0]
  · intro hf
    rw [validateJsonData_fst] at hf
    exact validateJsonData_false_error js s hf

theorem validateJsonData_spec_witness :
    envOk.health = true ∧
      (((validateJsonData "[1]" initialState).1 = true ↔
        (jsTrim "[1]" ≠ "" ∧ ∃ v, jsonParse "[1]" = some v ∧ isObjOrArr v = true)) ∧
      ((validateJsonData "[1]" initialState).1 = false →
        (validateJsonData "[1]" initialState).2.error ≠ "") ∧
      (jsonAccepted initialState.evaluationData = true →
        ∃ v, jsonParse initialState.evaluationData = some v ∧
          (evaluateRule envOk initialState 1).2 = [.health, .postEvaluate 1 v]) ∧
      (jsonAccepted initialState.evaluationData = false →
        (evaluateRule envOk initialState 1).2 = [.health] ∧
          (evaluateRule envOk initialState 1).1.error ≠ "")) :=
  ⟨rfl, validateJsonData_spec "[1]" initialState envOk 1 rfl⟩

/-- C5 counterexample: `[1]` is a JSON array but not a sequence of Records,
yet `evaluateBatch` sends the batch request for it and records no error. -/
theorem evaluateBatch_nonrecord_cex :
    isRecordListText "[1]" = false ∧
      (evaluateBatch envOk {initialState with batchData := "[1]"}).2 =
        [.postBatch [] [.jnum "1"]] ∧
      (evaluateBatch envOk {initialState with batchData := "[1]"}).1.error = "" :=
  ⟨rfl, rfl, rfl⟩

/-- C5 (amended): batch evaluation requires its input to denote a JSON
array, with elements unchecked: if the batch-data string does not parse as
JSON or parses to a non-array, `evaluateBatch` records an error and sends
no request; if it parses to any array, exactly one request is sent pairing
that list with the ids of all currently listed rules. -/
theorem evaluateBatch_spec (env : Backend) (s : UIState) :
    ((∀ v, jsonParse s.batchData = some v → isArr v = false) →
      (evaluateBatch env s).2 = [] ∧ (evaluateBatch env s).1.error ≠ "") ∧
    (∀ items, jsonParse s.batchData = some (.jarr items) →
      (evaluateBatch env s).2 = [.postBatch (s.rules.map (fun r => r.rule_id)) items]) := by
  constructor
  · intro hna
    by_cases hacc : jsonAccepted s.batchData = true
    · obtain ⟨hstate, v, hv, hov⟩ := validateJsonData_true_state s.batchData s hacc
      have hnarr : isArr v = false := hna v hv
      rcases v with _ | b | l | t | es | fs
      · exact absurd hov (by simp [isObjOrArr])
      · exact absurd hov (by simp [isObjOrArr])
      · exact absurd hov (by simp [isObjOrArr])
      · exact absurd hov (by simp [isObjOrArr])
      · exact absurd hnarr (by simp [isArr])
      · constructor <;> simp [evaluateBatch, hstate, hv]
    · have hfac : jsonAccepted s.batchData = false := by simpa using hacc
      have herr := validateJsonData_false_error s.batchData s hfac
      have hfalse : (validateJsonData s.batchData s).1 = false := by
        rw [validateJsonData_fst]
        exact hfac
      constructor
      · simp [evaluateBatch, hfalse]
      · simpa [evaluateBatch, hfalse] using herr
  · intro items hv
    have hacc : jsonAccepted s.batchData = true := by
      unfold jsonAccepted
      have htrim : ¬jsTrim s.batchData = "" := by
        intro h0
        rw [jsTrim_empty_parse_none s.batchData h0] at hv
        cases hv
      rw [if_neg htrim, hv]
      rfl
    obtain ⟨hstate, _⟩ := validateJsonData_true_state s.batchData s hacc
    rcases henv : env.batchResp with m | results <;>
      simp [evaluateBatch, hstate, hv, henv]

theorem evaluateBatch_spec_witness :
    (evaluateBatch envOk {initialState with batchData := "[]"}).2 = [.postBatch [] []] := by
  have h := (evaluateBatch_spec envOk {initialState with batchData := "[]"}).2 [] rfl
  simpa using h

/-! ## Claim C6: totality, error surfacing, no retries -/

def isCreateReq : Request → Bool
  | .postCreate .. => true
  | _ => false

def isDeleteReq : Request → Bool
  | .deleteReq _ => true
  | _ => false

def isCombineReq : Request → Bool
  | .postCombine .. => true
  | _ => false

def isEvalReq : Request → Bool
  | .postEvaluate .. => true
  | _ => false

def isBatchReq : Request → Bool
  | .postBatch .. => true
  | _ => false

theorem createRule_count (env : Backend) (s : UIState) :
    (createRule env s).2.countP isCreateReq ≤ 1 := by
  rcases hv : validateRule s.newRule with m | u <;>
    rcases hc : env.createResp with m2 | u2 <;>
      rcases hr : env.rulesResp with m3 | u3 <;>
        by_cases h1 : env.health <;>
          simp [createRule, checkBackendConnection, fetchRules, h1, hv, hc, hr,
            isCreateReq, List.countP_cons]

theorem deleteRule_count (env : Backend) (s : UIState) (ruleId : Nat) :
    (deleteRule env s ruleId).2.countP isDeleteReq ≤ 1 := by
  rcases hd : env.deleteResp with m | u <;>
    rcases hr : env.rulesResp with m2 | u2 <;>
      by_cases h1 : env.health <;>
        simp [deleteRule, checkBackendConnection, fetchRules, h1, hd, hr,
          isDeleteReq, List.countP_cons]

theorem combineRules_count (env : Backend) (s : UIState) :
    (combineRules env s).2.countP isCombineReq ≤ 1 := by
  rcases hcb : env.combineResp with m | u <;>
    rcases hr : env.rulesResp with m2 | u2 <;>
      by_cases h1 : env.health <;>
        simp [combineRules, checkBackendConnection, fetchRules, h1, hcb, hr,
          isCombineReq, List.countP_cons]

theorem evaluateRule_count (env : Backend) (s : UIState) (ruleId : Nat) :
    (evaluateRule env s ruleId).2.countP isEvalReq ≤ 1 := by
  by_cases h1 : env.health
  · by_cases hacc : jsonAccepted s.evaluationData = true
    · obtain ⟨v, hv, hreq⟩ := (evaluateRule_shape env s ruleId h1).1 hacc
      simp [hreq, isEvalReq, List.countP_cons]
    · have hreq := ((evaluateRule_shape env s ruleId h1).2 (by simpa using hacc)).1
      simp [hreq, isEvalReq, List.countP_cons]
  · have h1f : env.health = false := by simpa using h1
    simp [evaluateRule, checkBackendConnection, h1f, isEvalReq, List.countP_cons]

theorem evaluateBatch_count (env : Backend) (s : UIState) :
    (evaluateBatch env s).2.countP isBatchReq ≤ 1 := by
  by_cases hacc : jsonAccepted s.batchData = true
  · obtain ⟨hstate, v, hv, hov⟩ := validateJsonData_true_state s.batchData s hacc
    rcases hb : env.batchResp with m | results <;>
      rcases v with _ | b | l | t | es | fs <;>
        simp [evaluateBatch, hstate, hv, hb, isBatchReq, List.countP_cons]
  · have hfalse : (validateJsonData s.batchData s).1 = false := by
      rw [validateJsonData_fst]
      simpa using hacc
    simp [evaluateBatch, hfalse]

theorem createRule_surfaces (env : Backend) (s : UIState) (m : String)
    (hh : env.health = true) (hval : validateRule s.newRule = .ok ())
    (hc : env.createResp = .error m) : (createRule env s).1.error = m := by
  simp [createRule, checkBackendConnection, hh, hval, hc]

theorem evaluateRule_surfaces (env : Backend) (s : UIState) (ruleId : Nat) (m : String)
    (hh : env.health = true) (hacc : jsonAccepted s.evaluationData = true)
    (he : env.evalResp = .error m) : (evaluateRule env s ruleId).1.error = m := by
  obtain ⟨hstate, v, hv, hov⟩ := validateJsonData_true_state s.evaluationData
    {s with error := "", connectionStatus := .connected} hacc
  simp [evaluateRule, checkBackendConnection, hh, hstate, hv, he]

theorem evaluateBatch_surfaces (env : Backend) (s : UIState) (m : String) (items : List JVal)
    (hv : jsonParse s.batchData = some (.jarr items)) (hb : env.batchResp = .error m) :
    (evaluateBatch env s).1.error = m := by
  have hacc : jsonAccepted s.batchData = true := by
    unfold jsonAccepted
    have htrim : ¬jsTrim s.batchData = "" := by
      intro h0
      rw [jsTrim_empty_parse_none s.batchData h0] at hv
      cases hv
    rw [if_neg htrim, hv]
    rfl
  obtain ⟨hstate, _⟩ := validateJsonData_true_state s.batchData s hacc
  simp [evaluateBatch, hstate, hv, hb]

/-- C6: every handler is a total function of the backend's responses (no
exception escapes: each is defined for all inputs and responses), each
failed operation's message is surfaced in the error state, and no handler
retries its operation — its request appears at most once in the trace. -/
theorem handlers_no_throw_no_retry (env : Backend) (s : UIState) (ruleId : Nat) :
    ((createRule env s).2.countP isCreateReq ≤ 1 ∧
      (deleteRule env s ruleId).2.countP isDeleteReq ≤ 1 ∧
      (combineRules env s).2.countP isCombineReq ≤ 1 ∧
      (evaluateRule env s ruleId).2.countP isEvalReq ≤ 1 ∧
      (evaluateBatch env s).2.countP isBatchReq ≤ 1) ∧
    (∀ m, env.createResp = .error m → env.health = true → validateRule s.newRule = .ok () →
      (createRule env s).1.error = m) ∧
    (∀ m, env.deleteResp = .error m → (deleteRule env s ruleId).1.error = m) ∧
    (∀ m, env.combineResp = .error m → (combineRules env s).1.error = m) ∧
    (∀ m, env.evalResp = .error m → env.health = true →
      jsonAccepted s.evaluationData = true → (evaluateRule env s ruleId).1.error = m) ∧
    (∀ m items, env.batchResp = .error m → jsonParse s.batchData = some (.jarr items) →
      (evaluateBatch env s).1.error = m) := by
  refine ⟨⟨createRule_count env s, deleteRule_count env s ruleId, combineRules_count env s,
    evaluateRule_count env s ruleId, evaluateBatch_count env s⟩, ?_, ?_, ?_, ?_, ?_⟩
  · intro m hc hh hval
    exact createRule_surfaces env s m hh hval hc
  · intro m hd
    simp [deleteRule, hd]
  · intro m hcb
    simp [combineRules, hcb]
  · intro m he hh hacc
    exact evaluateRule_surfaces env s ruleId m hh hacc he
  · intro m items hb hv
    exact evaluateBatch_surfaces env s m items hv hb

/-- A backend on which every operation endpoint fails. -/
def envErr : Backend :=
  ⟨true, .error "fetch failed", .error "create failed", .error "delete failed",
    .error "combine failed", .error "eval failed", .error "batch failed"⟩

/-- A state with a valid new rule, valid evaluation data and valid batch
data. -/
def stateW : UIState :=
  { initialState with
    newRule := ⟨none, "n", "", "a AND b", none⟩
    evaluationData := "{}"
    batchData := "[]" }

theorem handlers_no_throw_no_retry_witness :
    envErr.createResp = .error "create failed" ∧ validateRule stateW.newRule = .ok () ∧
      envErr.health = true ∧ jsonAccepted stateW.evaluationData = true ∧
      jsonParse stateW.batchData = some (.jarr []) ∧
      ((createRule envErr stateW).2.countP isCreateReq ≤ 1 ∧
        (deleteRule envErr stateW 1).2.countP isDeleteReq ≤ 1 ∧
        (combineRules envErr stateW).2.countP isCombineReq ≤ 1 ∧
        (evaluateRule envErr stateW 1).2.countP isEvalReq ≤ 1 ∧
        (evaluateBatch envErr stateW).2.countP isBatchReq ≤ 1) ∧
      (createRule envErr stateW).1.error = "create failed" ∧
      (deleteRule envErr stateW 1).1.error = "delete failed" ∧
      (combineRules envErr stateW).1.error = "combine failed" ∧
      (evaluateRule envErr stateW 1).1.error = "eval failed" ∧
      (evaluateBatch envErr stateW).1.error = "batch failed" := by
  have h := handlers_no_throw_no_retry envErr stateW 1
  exact ⟨rfl, rfl, rfl, rfl, rfl, h.1,
    h.2.1 "create failed" rfl rfl rfl,
    h.2.2.1 "delete failed" rfl,
    h.2.2.2.1 "combine failed" rfl,
    h.2.2.2.2.1 "eval failed" rfl rfl rfl,
    h.2.2.2.2.2 "batch failed" [] rfl rfl⟩

/-! ## Claim C8: buildGraph invariants -/

/-- Number of edges `buildGraph` emits: one per present child. -/
def edgeCount : VAst → Nat
  | .mk _ _ l r =>
    (match l with | some x => 1 + edgeCount x | none => 0)
      + (match r with | some x => 1 + edgeCount x | none => 0)

/-- The id `buildGraph` assigns to the root of its argument. -/
def idOf (parentId : Option String) (n : VAst) : String :=
  match parentId with
  | some p => p ++ "-" ++ n.type
  | none => "root"

theorem vastSize_pos (n : VAst) : 1 ≤ vastSize n := by
  rcases n with ⟨ty, v, _ | l, _ | r⟩ <;> ((try simp [vastSize]); (try omega))

theorem buildGraph_head : ∀ (n : VAst) (pid : Option String) (pos : Int × Int),
    ∃ g tl, (buildGraph n pid pos).1 = g :: tl ∧ g.id = idOf pid n := by
  intro n pid pos
  rcases n with ⟨ty, v, lopt, ropt⟩
  rcases lopt with _ | l <;> rcases ropt with _ | r <;>
    exact ⟨_, _, rfl, rfl⟩

theorem buildGraph_len : ∀ (k : Nat) (n : VAst), vastSize n ≤ k →
    ∀ (pid : Option String) (pos : Int × Int),
      (buildGraph n pid pos).1.length = vastSize n ∧
        (buildGraph n pid pos).2.length = edgeCount n := by
  intro k
  induction k with
  | zero => intro n hn; exact absurd (le_trans (vastSize_pos n) hn) (by omega)
  | succ k ih =>
    intro n hn pid pos
    rcases n with ⟨ty, v, lopt, ropt⟩
    rcases lopt with _ | l <;> rcases ropt with _ | r
    · simp [buildGraph, vastSize, edgeCount]
    · have hr := ih r (by simp [vastSize] at hn ⊢; omega)
      simp [buildGraph, vastSize, edgeCount, (hr _ _).1, (hr _ _).2]
      omega
    · have hl := ih l (by simp [vastSize] at hn ⊢; omega)
      simp [buildGraph, vastSize, edgeCount, (hl _ _).1, (hl _ _).2]
      omega
    · have hl := ih l (by simp [vastSize] at hn ⊢; omega)
      have hr := ih r (by simp [vastSize] at hn ⊢; omega)
      simp [buildGraph, vastSize, edgeCount, (hl _ _).1, (hl _ _).2, (hr _ _).1, (hr _ _).2]
      omega

theorem edgeCount_strict : ∀ (k : Nat) (n : VAst), vastSize n ≤ k →
    strictBinary n = true → edgeCount n = vastSize n - 1 := by
  intro k
  induction k with
  | zero => intro n hn; exact absurd (le_trans (vastSize_pos n) hn) (by omega)
  | succ k ih =>
    intro n hn hs
    rcases n with ⟨ty, v, lopt, ropt⟩
    rcases lopt with _ | l <;> rcases ropt with _ | r
    · simp [edgeCount, vastSize]
    · exact absurd hs (by simp [strictBinary])
    · exact absurd hs (by simp [strictBinary])
    · simp [strictBinary] at hs
      have hl := ih l (by simp [vastSize] at hn ⊢; omega) hs.1
      have hr := ih r (by simp [vastSize] at hn ⊢; omega) hs.2
      have hlp := vastSize_pos l
      have hrp := vastSize_pos r
      simp [edgeCount, vastSize, hl, hr]
      omega

theorem buildGraph_ids_ext : ∀ (k : Nat) (n : VAst), vastSize n ≤ k →
    ∀ (p : String) (pos : Int × Int),
      ∀ g ∈ (buildGraph n (some p) pos).1, ∃ s : List Char, g.id.data = p.data ++ '-' :: s := by
  intro k
  induction k with
  | zero => intro n hn; exact absurd (le_trans (vastSize_pos n) hn) (by omega)
  | succ k ih =>
    intro n hn p pos g hg
    rcases n with ⟨ty, v, lopt, ropt⟩
    have hself : ∀ q : GNode, q.id = p ++ "-" ++ ty →
        ∃ s : List Char, q.id.data = p.data ++ '-' :: s := by
      intro q hq
      exact ⟨ty.data, by simp [hq, String.data_append]⟩
    have hsub : ∀ (m : VAst) (sfx : String) (pos1 : Int × Int),
        vastSize m ≤ k →
        ∀ g1 ∈ (buildGraph m (some (p ++ "-" ++ ty ++ sfx)) pos1).1,
          ∃ s : List Char, g1.id.data = p.data ++ '-' :: s := by
      intro m sfx pos1 hm g1 hg1
      obtain ⟨s, hs⟩ := ih m hm (p ++ "-" ++ ty ++ sfx) pos1 g1 hg1
      refine ⟨ty.data ++ sfx.data ++ '-' :: s, ?_⟩
      rw [hs]
      simp [String.data_append, List.append_assoc]
    rcases lopt with _ | l <;> rcases ropt with _ | r
    · simp [buildGraph] at hg
      exact hself g (by rw [hg])
    · simp [buildGraph] at hg
      rcases hg with hg | hg
      · exact hself g (by rw [hg])
      · exact hsub r "-right" _ (by simp [vastSize] at hn ⊢; omega) g hg
    · simp [buildGraph] at hg
      rcases hg with hg | hg
      · exact hself g (by rw [hg])
      · exact hsub l "-left" _ (by simp [vastSize] at hn ⊢; omega) g hg
    · simp [buildGraph] at hg
      rcases hg with hg | hg | hg
      · exact hself g (by rw [hg])
      · exact hsub l "-left" _ (by simp [vastSize] at hn ⊢; omega) g hg
      · exact hsub r "-right" _ (by simp [vastSize] at hn ⊢; omega) g hg

/-- An id extending `q ++ sfx ++ "-"` is distinct from `q`. -/
theorem ext_ne_base (q sfx x : String) (s : List Char)
    (hs : x.data = (q ++ sfx).data ++ '-' :: s) : x ≠ q := by
  intro he
  rw [he] at hs
  have hlen := congrArg List.length hs
  simp [String.data_append] at hlen

/-- An id cannot extend both the `-left` and the `-right` branch of the
same parent. -/
theorem left_right_disjoint (q x : String) (s1 s2 : List Char)
    (h1 : x.data = (q ++ "-left").data ++ '-' :: s1)
    (h2 : x.data = (q ++ "-right").data ++ '-' :: s2) : False := by
  rw [h1] at h2
  simp only [String.data_append] at h2
  rw [List.append_assoc, List.append_assoc] at h2
  have h3 := List.append_cancel_left h2
  simp [show ("-left" : String).data = ['-', 'l', 'e', 'f', 't'] from rfl,
    show ("-right" : String).data = ['-', 'r', 'i', 'g', 'h', 't'] from rfl] at h3

/-- Assembling distinct branch id lists under a fresh parent id. -/
theorem nodup_assemble (q : String) (L R : List String)
    (hNl : L.Nodup) (hNr : R.Nodup)
    (hL : ∀ x ∈ L, ∃ s : List Char, x.data = (q ++ "-left").data ++ '-' :: s)
    (hR : ∀ x ∈ R, ∃ s : List Char, x.data = (q ++ "-right").data ++ '-' :: s) :
    (q :: (L ++ R)).Nodup := by
  simp only [List.nodup_cons, List.nodup_append, List.mem_append]
  refine ⟨?_, hNl, hNr, ?_⟩
  · rintro (hq | hq)
    · obtain ⟨s, hs⟩ := hL q hq
      exact ext_ne_base q "-left" q s hs rfl
    · obtain ⟨s, hs⟩ := hR q hq
      exact ext_ne_base q "-right" q s hs rfl
  · intro x hx hxr
    obtain ⟨s1, h1⟩ := hL x hx
    obtain ⟨s2, h2⟩ := hR x hxr
    exact left_right_disjoint q x s1 s2 h1 h2

theorem buildGraph_nodup_some : ∀ (k : Nat) (n : VAst), vastSize n ≤ k →
    ∀ (p : String) (pos : Int × Int),
      ((buildGraph n (some p) pos).1.map GNode.id).Nodup := by
  intro k
  induction k with
  | zero => intro n hn; exact absurd (le_trans (vastSize_pos n) hn) (by omega)
  | succ k ih =>
    intro n hn p pos
    rcases n with ⟨ty, v, lopt, ropt⟩
    rcases lopt with _ | l <;> rcases ropt with _ | r
    · simp [buildGraph]
    · have hbr : vastSize r ≤ k := by simp [vastSize] at hn ⊢; omega
      have hext := buildGraph_ids_ext k r hbr (p ++ "-" ++ ty ++ "-right")
        (pos.1 + 100, pos.2 + 100)
      have hR : ∀ x ∈ (buildGraph r (some (p ++ "-" ++ ty ++ "-right"))
          (pos.1 + 100, pos.2 + 100)).1.map GNode.id,
          ∃ s : List Char, x.data = ((p ++ "-" ++ ty) ++ "-right").data ++ '-' :: s := by
        intro x hx
        simp only [List.mem_map] at hx
        obtain ⟨g, hg, rfl⟩ := hx
        exact hext g hg
      have hres := nodup_assemble (p ++ "-" ++ ty) [] _ (by simp) (ih r hbr _ _) (by simp) hR
      simpa [buildGraph] using hres
    · have hbl : vastSize l ≤ k := by simp [vastSize] at hn ⊢; omega
      have hext := buildGraph_ids_ext k l hbl (p ++ "-" ++ ty ++ "-left")
        (pos.1 - 100, pos.2 + 100)
      have hL : ∀ x ∈ (buildGraph l (some (p ++ "-" ++ ty ++ "-left"))
          (pos.1 - 100, pos.2 + 100)).1.map GNode.id,
          ∃ s : List Char, x.data = ((p ++ "-" ++ ty) ++ "-left").data ++ '-' :: s := by
        intro x hx
        simp only [List.mem_map] at hx
        obtain ⟨g, hg, rfl⟩ := hx
        exact hext g hg
      have hres := nodup_assemble (p ++ "-" ++ ty) _ [] (ih l hbl _ _) (by simp) hL (by simp)
      simpa [buildGraph] using hres
    · have hbl : vastSize l ≤ k := by simp [vastSize] at hn ⊢; omega
      have hbr : vastSize r ≤ k := by simp [vastSize] at hn ⊢; omega
      have hextl := buildGraph_ids_ext k l hbl (p ++ "-" ++ ty ++ "-left")
        (pos.1 - 100, pos.2 + 100)
      have hextr := buildGraph_ids_ext k r hbr (p ++ "-" ++ ty ++ "-right")
        (pos.1 + 100, pos.2 + 100)
      simp only [buildGraph, List.map_cons, List.map_append]
      refine nodup_assemble (p ++ "-" ++ ty) _ _ (ih l hbl _ _) (ih r hbr _ _) ?_ ?_
      · intro x hx
        simp only [List.mem_map] at hx
        obtain ⟨g, hg, rfl⟩ := hx
        exact hextl g hg
      · intro x hx
        simp only [List.mem_map] at hx
        obtain ⟨g, hg, rfl⟩ := hx
        exact hextr g hg

theorem buildGraph_nodup_root (n : VAst) (pos : Int × Int) :
    ((buildGraph n none pos).1.map GNode.id).Nodup := by
  rcases n with ⟨ty, v, lopt, ropt⟩
  rcases lopt with _ | l <;> rcases ropt with _ | r
  · simp [buildGraph]
  · have hext := buildGraph_ids_ext (vastSize r) r le_rfl ("root" ++ "-right")
      (pos.1 + 100, pos.2 + 100)
    have hR : ∀ x ∈ (buildGraph r (some ("root" ++ "-right"))
        (pos.1 + 100, pos.2 + 100)).1.map GNode.id,
        ∃ s : List Char, x.data = ("root" ++ "-right").data ++ '-' :: s := by
      intro x hx
      simp only [List.mem_map] at hx
      obtain ⟨g, hg, rfl⟩ := hx
      exact hext g hg
    have hres := nodup_assemble "root" [] _ (by simp)
      (buildGraph_nodup_some (vastSize r) r le_rfl _ _) (by simp) hR
    simpa [buildGraph] using hres
  · have hext := buildGraph_ids_ext (vastSize l) l le_rfl ("root" ++ "-left")
      (pos.1 - 100, pos.2 + 100)
    have hL : ∀ x ∈ (buildGraph l (some ("root" ++ "-left"))
        (pos.1 - 100, pos.2 + 100)).1.map GNode.id,
        ∃ s : List Char, x.data = ("root" ++ "-left").data ++ '-' :: s := by
      intro x hx
      simp only [List.mem_map] at hx
      obtain ⟨g, hg, rfl⟩ := hx
      exact hext g hg
    have hres := nodup_assemble "root" _ [] (buildGraph_nodup_some (vastSize l) l le_rfl _ _)
      (by simp) hL (by simp)
    simpa [buildGraph] using hres
  · have hextl := buildGraph_ids_ext (vastSize l) l le_rfl ("root" ++ "-left")
      (pos.1 - 100, pos.2 + 100)
    have hextr := buildGraph_ids_ext (vastSize r) r le_rfl ("root" ++ "-right")
      (pos.1 + 100, pos.2 + 100)
    have hL : ∀ x ∈ (buildGraph l (some ("root" ++ "-left"))
        (pos.1 - 100, pos.2 + 100)).1.map GNode.id,
        ∃ s : List Char, x.data = ("root" ++ "-left").data ++ '-' :: s := by
      intro x hx
      simp only [List.mem_map] at hx
      obtain ⟨g, hg, rfl⟩ := hx
      exact hextl g hg
    have hR : ∀ x ∈ (buildGraph r (some ("root" ++ "-right"))
        (pos.1 + 100, pos.2 + 100)).1.map GNode.id,
        ∃ s : List Char, x.data = ("root" ++ "-right").data ++ '-' :: s := by
      intro x hx
      simp only [List.mem_map] at hx
      obtain ⟨g, hg, rfl⟩ := hx
      exact hextr g hg
    have hres := nodup_assemble "root" _ _ (buildGraph_nodup_some (vastSize l) l le_rfl _ _)
      (buildGraph_nodup_some (vastSize r) r le_rfl _ _) hL hR
    simpa [buildGraph] using hres

/-- The root id of a subtree built under parent chain `q ++ "-left"` is the
edge target `buildGraph` writes for the left child. -/
theorem target_mem_left (m : VAst) (q : String) (pos : Int × Int) :
    (q ++ "-left-" ++ m.type) ∈ (buildGraph m (some (q ++ "-left")) pos).1.map GNode.id := by
  obtain ⟨g, tl, hn, hid⟩ := buildGraph_head m (some (q ++ "-left")) pos
  rw [hn]
  simp only [List.map_cons, List.mem_cons]
  left
  rw [hid]
  apply String.ext
  simp [idOf, String.data_append]

theorem target_mem_right (m : VAst) (q : String) (pos : Int × Int) :
    (q ++ "-right-" ++ m.type) ∈ (buildGraph m (some (q ++ "-right")) pos).1.map GNode.id := by
  obtain ⟨g, tl, hn, hid⟩ := buildGraph_head m (some (q ++ "-right")) pos
  rw [hn]
  simp only [List.map_cons, List.mem_cons]
  left
  rw [hid]
  apply String.ext
  simp [idOf, String.data_append]

/-- Lifting a membership fact into the assembled node list. -/
theorem mem_lift (a q : String) (x y : Int) (lab : String) (L R : List GNode)
    (h : a ∈ L.map GNode.id ∨ a ∈ R.map GNode.id ∨ a = q) :
    a ∈ ((⟨q, x, y, lab⟩ : GNode) :: (L ++ R)).map GNode.id := by
  simp only [List.map_cons, List.map_append, List.mem_cons, List.mem_append]
  tauto

theorem buildGraph_edges_some : ∀ (k : Nat) (n : VAst), vastSize n ≤ k →
    ∀ (p : String) (pos : Int × Int), ∀ e ∈ (buildGraph n (some p) pos).2,
      e.source ∈ (buildGraph n (some p) pos).1.map GNode.id ∧
        e.target ∈ (buildGraph n (some p) pos).1.map GNode.id := by
  intro k
  induction k with
  | zero => intro n hn; exact absurd (le_trans (vastSize_pos n) hn) (by omega)
  | succ k ih =>
    intro n hn p pos e he
    rcases n with ⟨ty, v, lopt, ropt⟩
    rcases lopt with _ | l <;> rcases ropt with _ | r
    · simp [buildGraph] at he
    · have hbr : vastSize r ≤ k := by simp [vastSize] at hn ⊢; omega
      have hRr := ih r hbr ((p ++ "-" ++ ty) ++ "-right") (pos.1 + 100, pos.2 + 100)
      simp only [buildGraph, List.nil_append, List.mem_append, List.mem_singleton] at he
      simp only [buildGraph]
      rcases he with he | he
      · obtain ⟨hs, ht⟩ := hRr e he
        exact ⟨mem_lift _ _ _ _ _ _ _ (Or.inr (Or.inl hs)),
          mem_lift _ _ _ _ _ _ _ (Or.inr (Or.inl ht))⟩
      · subst he
        refine ⟨mem_lift _ _ _ _ _ _ _ (Or.inr (Or.inr rfl)), ?_⟩
        exact mem_lift _ _ _ _ _ _ _ (Or.inr (Or.inl (target_mem_right r (p ++ "-" ++ ty) _)))
    · have hbl : vastSize l ≤ k := by simp [vastSize] at hn ⊢; omega
      have hLl := ih l hbl ((p ++ "-" ++ ty) ++ "-left") (pos.1 - 100, pos.2 + 100)
      simp only [buildGraph, List.append_nil, List.mem_append, List.mem_singleton] at he
      simp only [buildGraph]
      rcases he with he | he
      · obtain ⟨hs, ht⟩ := hLl e he
        exact ⟨mem_lift _ _ _ _ _ _ _ (Or.inl hs), mem_lift _ _ _ _ _ _ _ (Or.inl ht)⟩
      · subst he
        refine ⟨mem_lift _ _ _ _ _ _ _ (Or.inr (Or.inr rfl)), ?_⟩
        exact mem_lift _ _ _ _ _ _ _ (Or.inl (target_mem_left l (p ++ "-" ++ ty) _))
    · have hbl : vastSize l ≤ k := by simp [vastSize] at hn ⊢; omega
      have hbr : vastSize r ≤ k := by simp [vastSize] at hn ⊢; omega
      have hLl := ih l hbl ((p ++ "-" ++ ty) ++ "-left") (pos.1 - 100, pos.2 + 100)
      have hRr := ih r hbr ((p ++ "-" ++ ty) ++ "-right") (pos.1 + 100, pos.2 + 100)
      simp only [buildGraph, List.mem_append, List.mem_singleton] at he
      simp only [buildGraph]
      rcases he with (he | he) | (he | he)
      · obtain ⟨hs, ht⟩ := hLl e he
        exact ⟨mem_lift _ _ _ _ _ _ _ (Or.inl hs), mem_lift _ _ _ _ _ _ _ (Or.inl ht)⟩
      · subst he
        refine ⟨mem_lift _ _ _ _ _ _ _ (Or.inr (Or.inr rfl)), ?_⟩
        exact mem_lift _ _ _ _ _ _ _ (Or.inl (target_mem_left l (p ++ "-" ++ ty) _))
      · obtain ⟨hs, ht⟩ := hRr e he
        exact ⟨mem_lift _ _ _ _ _ _ _ (Or.inr (Or.inl hs)),
          mem_lift _ _ _ _ _ _ _ (Or.inr (Or.inl ht))⟩
      · subst he
        refine ⟨mem_lift _ _ _ _ _ _ _ (Or.inr (Or.inr rfl)), ?_⟩
        exact mem_lift _ _ _ _ _ _ _ (Or.inr (Or.inl (target_mem_right r (p ++ "-" ++ ty) _)))

theorem buildGraph_edges_root (n : VAst) (pos : Int × Int) :
    ∀ e ∈ (buildGraph n none pos).2,
      e.source ∈ (buildGraph n none pos).1.map GNode.id ∧
        e.target ∈ (buildGraph n none pos).1.map GNode.id := by
  intro e he
  rcases n with ⟨ty, v, lopt, ropt⟩
  rcases lopt with _ | l <;> rcases ropt with _ | r
  · simp [buildGraph] at he
  · have hRr := buildGraph_edges_some (vastSize r) r le_rfl ("root" ++ "-right")
      (pos.1 + 100, pos.2 + 100)
    simp only [buildGraph, List.nil_append, List.mem_append, List.mem_singleton] at he
    simp only [buildGraph]
    rcases he with he | he
    · obtain ⟨hs, ht⟩ := hRr e he
      exact ⟨mem_lift _ _ _ _ _ _ _ (Or.inr (Or.inl hs)),
        mem_lift _ _ _ _ _ _ _ (Or.inr (Or.inl ht))⟩
    · subst he
      refine ⟨mem_lift _ _ _ _ _ _ _ (Or.inr (Or.inr rfl)), ?_⟩
      exact mem_lift _ _ _ _ _ _ _ (Or.inr (Or.inl (target_mem_right r "root" _)))
  · have hLl := buildGraph_edges_some (vastSize l) l le_rfl ("root" ++ "-left")
      (pos.1 - 100, pos.2 + 100)
    simp only [buildGraph, List.append_nil, List.mem_append, List.mem_singleton] at he
    simp only [buildGraph]
    rcases he with he | he
    · obtain ⟨hs, ht⟩ := hLl e he
      exact ⟨mem_lift _ _ _ _ _ _ _ (Or.inl hs), mem_lift _ _ _ _ _ _ _ (Or.inl ht)⟩
    · subst he
      refine ⟨mem_lift _ _ _ _ _ _ _ (Or.inr (Or.inr rfl)), ?_⟩
      exact mem_lift _ _ _ _ _ _ _ (Or.inl (target_mem_left l "root" _))
  · have hLl := buildGraph_edges_some (vastSize l) l le_rfl ("root" ++ "-left")
      (pos.1 - 100, pos.2 + 100)
    have hRr := buildGraph_edges_some (vastSize r) r le_rfl ("root" ++ "-right")
      (pos.1 + 100, pos.2 + 100)
    simp only [buildGraph, List.mem_append, List.mem_singleton] at he
    simp only [buildGraph]
    rcases he with (he | he) | (he | he)
    · obtain ⟨hs, ht⟩ := hLl e he
      exact ⟨mem_lift _ _ _ _ _ _ _ (Or.inl hs), mem_lift _ _ _ _ _ _ _ (Or.inl ht)⟩
    · subst he
      refine ⟨mem_lift _ _ _ _ _ _ _ (Or.inr (Or.inr rfl)), ?_⟩
      exact mem_lift _ _ _ _ _ _ _ (Or.inl (target_mem_left l "root" _))
    · obtain ⟨hs, ht⟩ := hRr e he
      exact ⟨mem_lift _ _ _ _ _ _ _ (Or.inr (Or.inl hs)),
        mem_lift _ _ _ _ _ _ _ (Or.inr (Or.inl ht))⟩
    · subst he
      refine ⟨mem_lift _ _ _ _ _ _ _ (Or.inr (Or.inr rfl)), ?_⟩
      exact mem_lift _ _ _ _ _ _ _ (Or.inr (Or.inl (target_mem_right r "root" _)))

/-- C8: on a finite strict binary AST the visualizer's graph has exactly one
node per AST node with pairwise-distinct ids, exactly one edge per
parent-child pair (`n - 1` edges for `n` AST nodes), and every edge's
source and target ids occur in the returned node list. -/
theorem buildGraph_invariants (ast : VAst) (h : strictBinary ast = true) :
    (buildGraph ast none (0, 0)).1.length = vastSize ast ∧
      ((buildGraph ast none (0, 0)).1.map GNode.id).Nodup ∧
      (buildGraph ast none (0, 0)).2.length = vastSize ast - 1 ∧
      (∀ e ∈ (buildGraph ast none (0, 0)).2,
        e.source ∈ (buildGraph ast none (0, 0)).1.map GNode.id ∧
          e.target ∈ (buildGraph ast none (0, 0)).1.map GNode.id) :=
  ⟨(buildGraph_len (vastSize ast) ast le_rfl none (0, 0)).1,
    buildGraph_nodup_root ast (0, 0),
    by rw [(buildGraph_len (vastSize ast) ast le_rfl none (0, 0)).2,
      edgeCount_strict (vastSize ast) ast le_rfl h],
    buildGraph_edges_root ast (0, 0)⟩

theorem buildGraph_invariants_witness :
    strictBinary (.mk "operator" "AND" (some (.mk "operand" "age > 30" none none))
        (some (.mk "operand" "salary < 10" none none))) = true ∧
      ((buildGraph (.mk "operator" "AND" (some (.mk "operand" "age > 30" none none))
          (some (.mk "operand" "salary < 10" none none))) none (0, 0)).1.length =
        vastSize (.mk "operator" "AND" (some (.mk "operand" "age > 30" none none))
          (some (.mk "operand" "salary < 10" none none))) ∧
      ((buildGraph (.mk "operator" "AND" (some (.mk "operand" "age > 30" none none))
          (some (.mk "operand" "salary < 10" none none))) none (0, 0)).1.map GNode.id).Nodup ∧
      (buildGraph (.mk "operator" "AND" (some (.mk "operand" "age > 30" none none))
          (some (.mk "operand" "salary < 10" none none))) none (0, 0)).2.length =
        vastSize (.mk "operator" "AND" (some (.mk "operand" "age > 30" none none))
          (some (.mk "operand" "salary < 10" none none))) - 1 ∧
      (∀ e ∈ (buildGraph (.mk "operator" "AND" (some (.mk "operand" "age > 30" none none))
          (some (.mk "operand" "salary < 10" none none))) none (0, 0)).2,
        e.source ∈ (buildGraph (.mk "operator" "AND" (some (.mk "operand" "age > 30" none none))
          (some (.mk "operand" "salary < 10" none none))) none (0, 0)).1.map GNode.id ∧
          e.target ∈ (buildGraph (.mk "operator" "AND"
            (some (.mk "operand" "age > 30" none none))
            (some (.mk "operand" "salary < 10" none none))) none (0, 0)).1.map GNode.id)) :=
  ⟨rfl, buildGraph_invariants _ rfl⟩

/-! ## Claim C9: the print/parse round trip of the JSON codec -/

mutual
/-- Structural measure of a JSON value, bounding the parser fuel its
printed form needs. -/
def mV : JVal → Nat
  | .jnull => 1
  | .jbool _ => 1
  | .jnum _ => 1
  | .jstr _ => 1
  | .jarr es => 1 + mL es
  | .jobj fs => 1 + mF fs

def mL : List JVal → Nat
  | [] => 0
  | v :: t => 1 + mV v + mL t

def mF : List (String × JVal) → Nat
  | [] => 0
  | f :: t => 2 + mV f.2 + mF t
end

/-- The rest of the input does not continue a number lexeme. -/
def numSafe : List Char → Bool
  | [] => true
  | c :: _ => !numCont c

theorem string_eta (s : String) : String.mk s.data = s := by
  cases s
  rfl

theorem spaces_length (n : Nat) : (spaces n).length = n := by
  induction n with
  | zero => rfl
  | succ n ih => simp [spaces, ih]

theorem skipWs_spaces (n : Nat) (l : List Char) : skipWs (spaces n ++ l) = skipWs l := by
  induction n with
  | zero => simp [spaces]
  | succ n ih => simpa [spaces, skipWs, List.dropWhile_cons, isWs] using ih

theorem skipWs_newline (l : List Char) : skipWs ('\n' :: l) = skipWs l := by
  simp [skipWs, List.dropWhile_cons, isWs]

theorem skipWs_not_ws (c : Char) (l : List Char) (h : isWs c = false) :
    skipWs (c :: l) = c :: l := by
  simp [skipWs, List.dropWhile_cons, h]

theorem digit_facts (c : Char) (h : digitB c = true) :
    isWs c = false ∧ c ≠ ']' ∧ c ≠ '}' ∧ c ≠ 'n' ∧ c ≠ 't' ∧ c ≠ 'f' ∧ c ≠ '"' ∧
      c ≠ '[' ∧ c ≠ '{' ∧ c ≠ '\n' := by
  simp [digitB, List.contains] at h
  rcases h with h | h | h | h | h | h | h | h | h | h <;> subst h <;> exact ⟨rfl, by decide⟩

theorem mV_pos (v : JVal) : 1 ≤ mV v := by
  rcases v <;> simp [mV]

/-! ### Number lexeme lemmas -/

theorem digit_numCont (c : Char) (h : digitB c = true) : numCont c = true := by
  simp [numCont, h]

theorem all_digit_numCont (l : List Char) (h : l.all digitB = true) :
    l.all numCont = true := by
  rw [List.all_eq_true] at h ⊢
  exact fun x hx => digit_numCont x (h x hx)

theorem takeWhile_all_self (p : Char → Bool) (l : List Char) :
    (l.takeWhile p).all p = true := by
  induction l with
  | nil => rfl
  | cons c t ih =>
    rw [List.takeWhile_cons]
    by_cases hc : p c = true
    · simp [hc, ih]
    · simp [hc]

theorem nonemptyDigits_all (l : List Char) (h : nonemptyDigits l = true) :
    l.all numCont = true := by
  unfold nonemptyDigits at h
  simp only [Bool.and_eq_true] at h
  exact all_digit_numCont l h.2

theorem signDigits_all (l : List Char) (h : signDigits l = true) :
    l.all numCont = true := by
  rcases l with _ | ⟨c, t⟩
  · rfl
  · have h1 : (if c = '+' || c = '-' then nonemptyDigits t
        else nonemptyDigits (c :: t)) = true := h
    by_cases hc : (c = '+' || c = '-') = true
    · rw [if_pos hc] at h1
      have hct : numCont c = true := by
        simp at hc
        rcases hc with hc | hc <;> subst hc <;> rfl
      simp [List.all_cons, hct, nonemptyDigits_all t h1]
    · rw [if_neg hc] at h1
      exact nonemptyDigits_all _ h1

theorem expoOk_all (l : List Char) (h : expoOk l = true) : l.all numCont = true := by
  rcases l with _ | ⟨c, t⟩
  · rfl
  · have h1 : ((c = 'e' || c = 'E') && signDigits t) = true := h
    simp only [Bool.and_eq_true] at h1
    have hct : numCont c = true := by
      rcases (by simpa using h1.1 : c = 'e' ∨ c = 'E') with hc | hc <;> subst hc <;> rfl
    simp [List.all_cons, hct, signDigits_all t h1.2]

theorem split_all (p q : Char → Bool) (l : List Char)
    (h1 : (l.takeWhile q).all p = true) (h2 : (l.dropWhile q).all p = true) :
    l.all p = true := by
  have := List.takeWhile_append_dropWhile (p := q) (l := l)
  rw [← this, List.all_append]
  simp [h1, h2]

theorem fracOk_all (l : List Char) (h : fracOk l = true) : l.all numCont = true := by
  rcases l with _ | ⟨c, t⟩
  · rfl
  · have h1 : (if c = '.' then !(t.takeWhile digitB).isEmpty && expoOk (t.dropWhile digitB)
        else expoOk (c :: t)) = true := h
    by_cases hc : c = '.'
    · subst hc
      rw [if_pos rfl] at h1
      simp only [Bool.and_eq_true] at h1
      have ht : t.all numCont = true :=
        split_all numCont digitB t
          (all_digit_numCont _ (takeWhile_all_self digitB t)) (expoOk_all _ h1.2)
      simp [List.all_cons, ht]
      rfl
    · rw [if_neg hc] at h1
      exact expoOk_all _ h1

theorem intOk_all (l : List Char) (h : intOk l = true) : l.all numCont = true := by
  rcases l with _ | ⟨c, t⟩
  · rfl
  · have h1 : (if c = '0' then fracOk t
        else if digitB c then fracOk (t.dropWhile digitB) else false) = true := h
    by_cases hc : c = '0'
    · subst hc
      rw [if_pos rfl] at h1
      simp [List.all_cons, fracOk_all t h1]
      rfl
    · rw [if_neg hc] at h1
      by_cases hd : digitB c = true
      · rw [if_pos hd] at h1
        have ht : t.all numCont = true :=
          split_all numCont digitB t
            (all_digit_numCont _ (takeWhile_all_self digitB t)) (fracOk_all _ h1)
        simp [List.all_cons, digit_numCont c hd, ht]
      · rw [if_neg hd] at h1
        cases h1
end RuleEngine

namespace RuleEngine

theorem numOk_all (l : List Char) (h : numOk l = true) : l.all numCont = true := by
  rcases l with _ | ⟨c, t⟩
  · rfl
  · have h1 : (if c = '-' then intOk t else intOk (c :: t)) = true := h
    by_cases hc : c = '-'
    · subst hc
      rw [if_pos rfl] at h1
      simp [List.all_cons, intOk_all t h1]
      rfl
    · rw [if_neg hc] at h1
      exact intOk_all _ h1

theorem numOk_head (l : List Char) (h : numOk l = true) :
    ∃ c t, l = c :: t ∧ (c = '-' ∨ digitB c = true) := by
  rcases l with _ | ⟨c, t⟩
  · cases h
  · refine ⟨c, t, rfl, ?_⟩
    have h1 : (if c = '-' then intOk t else intOk (c :: t)) = true := h
    by_cases hc : c = '-'
    · exact Or.inl hc
    · right
      rw [if_neg hc] at h1
      have h2 : (if c = '0' then fracOk t
          else if digitB c then fracOk (t.dropWhile digitB) else false) = true := h1
      by_cases h0 : c = '0'
      · subst h0; rfl
      · rw [if_neg h0] at h2
        by_cases hd : digitB c = true
        · exact hd
        · rw [if_neg hd] at h2
          cases h2

/-- Head condition under which a span parse stops exactly at `rest`. -/
def headNot (p : Char → Bool) : List Char → Prop
  | [] => True
  | c :: _ => p c = false

theorem take_span (p : Char → Bool) : ∀ (l rest : List Char), l.all p = true →
    headNot p rest → (l ++ rest).takeWhile p = l ∧ (l ++ rest).dropWhile p = rest := by
  intro l
  induction l with
  | nil =>
    intro rest _ hrest
    rcases rest with _ | ⟨c, t⟩
    · exact ⟨rfl, rfl⟩
    · simp only [headNot] at hrest
      simp [List.takeWhile_cons, List.dropWhile_cons, hrest]
  | cons a l ih =>
    intro rest hall hrest
    simp only [List.all_cons, Bool.and_eq_true] at hall
    have := ih rest hall.2 hrest
    simp [List.takeWhile_cons, List.dropWhile_cons, hall.1, this.1, this.2]

theorem numSafe_headNot (rest : List Char) (h : numSafe rest = true) : headNot numCont rest := by
  rcases rest with _ | ⟨c, t⟩
  · trivial
  · simpa [numSafe, headNot] using h

/-! ### String escape round trip -/

theorem hexVal_hexDigit (n : Nat) (h : n < 16) : hexVal (hexDigit n) = some n := by
  interval_cases n <;> decide

/-- Unescaping inverts the printer's escaping. -/
theorem parseStrBody_esc : ∀ (cs rest : List Char),
    parseStrBody (escStr cs ++ '"' :: rest) = some (cs, rest) := by
  intro cs
  induction cs with
  | nil =>
    intro rest
    rw [escStr, List.nil_append, parseStrBody.eq_def]
    simp
  | cons c cs ih =>
    intro rest
    simp only [escStr, List.append_assoc]
    unfold escChar
    by_cases h1 : c = '"'
    · subst h1
      rw [if_pos rfl, List.cons_append, List.cons_append, List.nil_append, parseStrBody.eq_def]
      simp [mapCons, ih]
    · rw [if_neg h1]
      by_cases h2 : c = '\\'
      · subst h2
        rw [if_pos rfl, List.cons_append, List.cons_append, List.nil_append, parseStrBody.eq_def]
        simp [mapCons, ih]
      · rw [if_neg h2]
        by_cases h3 : c = '\n'
        · subst h3
          rw [if_pos rfl, List.cons_append, List.cons_append, List.nil_append,
            parseStrBody.eq_def]
          simp [mapCons, ih]
        · rw [if_neg h3]
          by_cases h4 : c = '\t'
          · subst h4
            rw [if_pos rfl, List.cons_append, List.cons_append, List.nil_append,
              parseStrBody.eq_def]
            simp [mapCons, ih]
          · rw [if_neg h4]
            by_cases h5 : c = '\r'
            · subst h5
              rw [if_pos rfl, List.cons_append, List.cons_append, List.nil_append,
                parseStrBody.eq_def]
              simp [mapCons, ih]
            · rw [if_neg h5]
              by_cases h6 : c.toNat = 8
              · rw [if_pos h6]
                have hc : Char.ofNat 8 = c := by rw [← h6, Char.ofNat_toNat]
                rw [List.cons_append, List.cons_append, List.nil_append, parseStrBody.eq_def]
                simp [mapCons, ih, hc]
                exact hc
              · rw [if_neg h6]
                by_cases h7 : c.toNat = 12
                · rw [if_pos h7]
                  have hc : Char.ofNat 12 = c := by rw [← h7, Char.ofNat_toNat]
                  rw [List.cons_append, List.cons_append, List.nil_append, parseStrBody.eq_def]
                  simp [mapCons, ih, hc]
                  exact hc
                · rw [if_neg h7]
                  by_cases h8 : c.toNat < 32
                  · rw [if_pos h8]
                    have hz : hexVal '0' = some 0 := by decide
                    have hhi : hexVal (hexDigit (c.toNat / 16)) = some (c.toNat / 16) :=
                      hexVal_hexDigit _ (by omega)
                    have hlo : hexVal (hexDigit (c.toNat % 16)) = some (c.toNat % 16) :=
                      hexVal_hexDigit _ (by omega)
                    have hval : Char.ofNat (((0 * 16 + 0) * 16 + c.toNat / 16) * 16 +
                        c.toNat % 16) = c := by
                      rw [show ((0 * 16 + 0) * 16 + c.toNat / 16) * 16 + c.toNat % 16 =
                        c.toNat by omega, Char.ofNat_toNat]
                    simp only [List.cons_append, List.nil_append]
                    rw [parseStrBody.eq_def]
                    simp [mapCons, ih, hz, hhi, hlo, hval]
                    rw [show c.toNat / 16 * 16 + c.toNat % 16 = c.toNat by omega,
                      Char.ofNat_toNat]
                  · rw [if_neg h8]
                    have h8f : (c.toNat < 32) = False := by simp [h8]
                    rw [List.cons_append, List.nil_append, parseStrBody.eq_def]
                    simp [mapCons, ih, h1, h2, h8f]

/-! ### Heads of printed forms and whitespace skipping -/

theorem skipWs_space (l : List Char) : skipWs (' ' :: l) = skipWs l := by
  simp [skipWs, List.dropWhile_cons, isWs]

theorem skipWs_quote (l : List Char) : skipWs ('"' :: l) = '"' :: l :=
  skipWs_not_ws _ _ rfl

theorem skipWs_comma (l : List Char) : skipWs (',' :: l) = ',' :: l :=
  skipWs_not_ws _ _ rfl

theorem skipWs_colon (l : List Char) : skipWs (':' :: l) = ':' :: l :=
  skipWs_not_ws _ _ rfl

theorem skipWs_rbracket (l : List Char) : skipWs (']' :: l) = ']' :: l :=
  skipWs_not_ws _ _ rfl

theorem skipWs_rbrace (l : List Char) : skipWs ('}' :: l) = '}' :: l :=
  skipWs_not_ws _ _ rfl

theorem printV_head (v : JVal) (ind : Nat) (hwf : wfB v = true) :
    ∃ c t, printV v ind = c :: t ∧ isWs c = false ∧ c ≠ ']' ∧ c ≠ '}' := by
  rcases v with _ | b | lex | s | es | fs
  · exact ⟨'n', _, rfl, rfl, by decide, by decide⟩
  · rcases b with _ | _
    · exact ⟨'f', _, rfl, rfl, by decide, by decide⟩
    · exact ⟨'t', _, rfl, rfl, by decide, by decide⟩
  · obtain ⟨c, t, hl, hc⟩ := numOk_head lex.data hwf
    refine ⟨c, t, hl, ?_⟩
    rcases hc with hc | hc
    · subst hc
      exact ⟨rfl, by decide, by decide⟩
    · obtain ⟨hw, h1, h2, _⟩ := digit_facts c hc
      exact ⟨hw, h1, h2⟩
  · exact ⟨'"', _, rfl, rfl, by decide, by decide⟩
  · rcases es with _ | ⟨y, t⟩
    · exact ⟨'[', _, rfl, rfl, by decide, by decide⟩
    · exact ⟨'[', _, rfl, rfl, by decide, by decide⟩
  · rcases fs with _ | ⟨f, t⟩
    · exact ⟨'{', _, rfl, rfl, by decide, by decide⟩
    · exact ⟨'{', _, rfl, rfl, by decide, by decide⟩

theorem printField_head (f : String × JVal) (ind : Nat) :
    ∃ X, printField f ind = '"' :: X := by
  rcases f with ⟨k, w⟩
  exact ⟨_, rfl⟩

theorem numSafe_items (t : List JVal) (ind : Nat) (z : List Char) :
    numSafe (printItems t ind ++ '\n' :: z) = true := by
  cases t <;> rfl

theorem numSafe_fields (t : List (String × JVal)) (ind : Nat) (z : List Char) :
    numSafe (printFields t ind ++ '\n' :: z) = true := by
  cases t <;> rfl

theorem parseNum_print (lex : String) (rest : List Char) (hwf : numOk lex.data = true)
    (hsafe : numSafe rest = true) : parseNum (lex.data ++ rest) = some (.jnum lex, rest) := by
  obtain ⟨htake, hdrop⟩ :=
    take_span numCont lex.data rest (numOk_all _ hwf) (numSafe_headNot rest hsafe)
  simp [parseNum, htake, hdrop, hwf, string_eta]

/-- One-step unfolding of `parseV` on a nonempty input. -/
theorem parseV_step (fuel : Nat) (c : Char) (t : List Char) :
    parseV (fuel + 1) (c :: t) =
      (if c = 'n' then
        match t with
        | 'u' :: 'l' :: 'l' :: t1 => some (.jnull, t1)
        | _ => none
      else if c = 't' then
        match t with
        | 'r' :: 'u' :: 'e' :: t1 => some (.jbool true, t1)
        | _ => none
      else if c = 'f' then
        match t with
        | 'a' :: 'l' :: 's' :: 'e' :: t1 => some (.jbool false, t1)
        | _ => none
      else if c = '"' then parseStrTail t
      else if c = '[' then
        let t1 := skipWs t
        if t1.head? = some ']' then some (.jarr [], t1.tail)
        else
          match parseV fuel t1 with
          | some (v, r) =>
            match parseItems fuel (skipWs r) with
            | some (vs, r2) => some (.jarr (v :: vs), r2)
            | none => none
          | none => none
      else if c = '{' then
        let t1 := skipWs t
        if t1.head? = some '}' then some (.jobj [], t1.tail)
        else
          match parseMember fuel t1 with
          | some (f, r) =>
            match parseMembers fuel (skipWs r) with
            | some (fs, r2) => some (.jobj (f :: fs), r2)
            | none => none
          | none => none
      else parseNum (c :: t)) := rfl

theorem parseItems_step (fuel : Nat) (c : Char) (t : List Char) :
    parseItems (fuel + 1) (c :: t) =
      (if c = ']' then some ([], t)
      else if c = ',' then
        match parseV fuel (skipWs t) with
        | some (v, r) =>
          match parseItems fuel (skipWs r) with
          | some (vs, r2) => some (v :: vs, r2)
          | none => none
        | none => none
      else none) := rfl

theorem parseMember_step (fuel : Nat) (c : Char) (t : List Char) :
    parseMember (fuel + 1) (c :: t) =
      (if c = '"' then
        match parseStrBody t with
        | some (k, r) =>
          match skipWs r with
          | ':' :: r2 =>
            match parseV fuel (skipWs r2) with
            | some (v, r3) => some ((⟨k⟩, v), r3)
            | none => none
          | _ => none
        | none => none
      else none) := rfl

theorem parseMembers_step (fuel : Nat) (c : Char) (t : List Char) :
    parseMembers (fuel + 1) (c :: t) =
      (if c = '}' then some ([], t)
      else if c = ',' then
        match parseMember fuel (skipWs t) with
        | some (f, r) =>
          match parseMembers fuel (skipWs r) with
          | some (fs, r2) => some (f :: fs, r2)
          | none => none
        | none => none
      else none) := rfl

theorem parseV_nil (fuel : Nat) : parseV (fuel + 1) [] = none := rfl

theorem parseItems_nil (fuel : Nat) : parseItems (fuel + 1) [] = none := rfl

theorem parseMember_nil (fuel : Nat) : parseMember (fuel + 1) [] = none := rfl

theorem parseMembers_nil (fuel : Nat) : parseMembers (fuel + 1) [] = none := rfl

/-- The print/parse round trip, by induction on the parser fuel: parsing a
printed well-formed value (with enough fuel and a rest that does not extend
a number lexeme) returns exactly that value. -/
theorem roundtrip_all : ∀ fuel : Nat,
    (∀ v ind rest, wfB v = true → mV v < fuel → numSafe rest = true →
      parseV fuel (printV v ind ++ rest) = some (v, rest)) ∧
    (∀ vs ind m rest, wfL vs = true → mL vs < fuel →
      parseItems fuel (skipWs (printItems vs ind ++ '\n' :: (spaces m ++ ']' :: rest))) =
        some (vs, rest)) ∧
    (∀ k w ind rest, wfB w = true → mV w + 1 < fuel → numSafe rest = true →
      parseMember fuel (printField (k, w) ind ++ rest) = some ((k, w), rest)) ∧
    (∀ fs ind m rest, wfF fs = true → mF fs < fuel →
      parseMembers fuel (skipWs (printFields fs ind ++ '\n' :: (spaces m ++ '}' :: rest))) =
        some (fs, rest)) := by
  intro fuel
  induction fuel with
  | zero =>
    exact ⟨fun v _ _ _ hm _ => absurd hm (by omega),
      fun vs _ _ _ _ hm => absurd hm (by omega),
      fun k w _ _ _ hm _ => absurd hm (by omega),
      fun fs _ _ _ _ hm => absurd hm (by omega)⟩
  | succ fuel ih =>
    obtain ⟨ihV, ihI, ihM, ihF⟩ := ih
    refine ⟨?_, ?_, ?_, ?_⟩
    · intro v ind rest hwf hm hsafe
      rcases v with _ | b | lex | s | es | fs
      · simp only [printV, List.cons_append, List.nil_append]
        rw [parseV.eq_def]
        simp
      · rcases b with _ | _ <;>
          · simp only [printV, List.cons_append, List.nil_append]
            rw [parseV.eq_def]
            simp
      · have hnum : numOk lex.data = true := hwf
        obtain ⟨c, t0, hl, hc⟩ := numOk_head lex.data hnum
        have hpn := parseNum_print lex rest hnum hsafe
        simp only [printV]
        rw [hl, List.cons_append, parseV.eq_def]
        rcases hc with hc | hc
        · subst hc
          simp only [Nat.add_eq, reduceIte]
          simp
          rw [← List.cons_append, ← hl]
          exact hpn
        · obtain ⟨hw, hne1, hne2, hn, ht1, hf1, hq1, hlb, hob, hnl⟩ := digit_facts c hc
          simp [hn, ht1, hf1, hq1, hlb, hob]
          rw [← List.cons_append, ← hl]
          exact hpn
      · simp only [printV, quoteStr, List.cons_append, List.append_assoc, List.nil_append]
        rw [parseV.eq_def]
        simp [parseStrTail, parseStrBody_esc, string_eta]
      · rcases es with _ | ⟨y, t⟩
        · simp only [printV, List.cons_append, List.nil_append]
          rw [parseV.eq_def]
          simp [skipWs_rbracket]
        · have hwfy : wfB y = true := by
            have h1 : (wfB y && wfL t) = true := hwf
            simp only [Bool.and_eq_true] at h1
            exact h1.1
          have hwft : wfL t = true := by
            have h1 : (wfB y && wfL t) = true := hwf
            simp only [Bool.and_eq_true] at h1
            exact h1.2
          have hmy : mV y < fuel := by
            have h1 : mV (.jarr (y :: t)) < fuel + 1 := hm
            simp [mV, mL] at h1
            omega
          have hmt : mL t < fuel := by
            have h1 : mV (.jarr (y :: t)) < fuel + 1 := hm
            simp [mV, mL] at h1
            omega
          have hy := ihV y (ind + 2)
            (printItems t (ind + 2) ++ '\n' :: (spaces ind ++ ']' :: rest)) hwfy hmy
            (numSafe_items t (ind + 2) (spaces ind ++ ']' :: rest))
          have hi := ihI t (ind + 2) ind rest hwft hmt
          obtain ⟨c, t0, hh, hcw, hc1, hc2⟩ := printV_head y (ind + 2) hwfy
          have hskip2 : skipWs (printV y (ind + 2) ++
              (printItems t (ind + 2) ++ '\n' :: (spaces ind ++ ']' :: rest))) =
              printV y (ind + 2) ++
              (printItems t (ind + 2) ++ '\n' :: (spaces ind ++ ']' :: rest)) := by
            rw [hh, List.cons_append]
            exact skipWs_not_ws _ _ hcw
          have hne : ¬((printV y (ind + 2) ++
              (printItems t (ind + 2) ++ '\n' :: (spaces ind ++ ']' :: rest))).head? =
              some ']') := by
            rw [hh, List.cons_append]
            simp [hc1]
          simp only [printV, List.cons_append, List.append_assoc, List.nil_append]
          rw [parseV.eq_def]
          simp [skipWs_newline, skipWs_spaces, hskip2, hne, hy, hi]
          constructor
          · rw [hh]
            simp [hc1]
          · intro habs
            rw [hh] at habs
            cases habs
      · rcases fs with _ | ⟨f, t⟩
        · simp only [printV, List.cons_append, List.nil_append]
          rw [parseV.eq_def]
          simp [skipWs_rbrace]
        · rcases f with ⟨k, w⟩
          have hwfw : wfB w = true := by
            have h1 : (wfB w && wfF t) = true := hwf
            simp only [Bool.and_eq_true] at h1
            exact h1.1
          have hwft : wfF t = true := by
            have h1 : (wfB w && wfF t) = true := hwf
            simp only [Bool.and_eq_true] at h1
            exact h1.2
          have hmw : mV w + 1 < fuel := by
            have h1 : mV (.jobj ((k, w) :: t)) < fuel + 1 := hm
            simp [mV, mF] at h1
            omega
          have hmt : mF t < fuel := by
            have h1 : mV (.jobj ((k, w) :: t)) < fuel + 1 := hm
            simp [mV, mF] at h1
            omega
          have hmem := ihM k w (ind + 2)
            (printFields t (ind + 2) ++ '\n' :: (spaces ind ++ '}' :: rest)) hwfw hmw
            (numSafe_fields t (ind + 2) (spaces ind ++ '}' :: rest))
          have hfs := ihF t (ind + 2) ind rest hwft hmt
          obtain ⟨X, hX⟩ := printField_head (k, w) (ind + 2)
          have hskipPF : skipWs (printField (k, w) (ind + 2) ++
              (printFields t (ind + 2) ++ '\n' :: (spaces ind ++ '}' :: rest))) =
              printField (k, w) (ind + 2) ++
              (printFields t (ind + 2) ++ '\n' :: (spaces ind ++ '}' :: rest)) := by
            rw [hX, List.cons_append]
            exact skipWs_quote _
          have hneF : ¬((printField (k, w) (ind + 2) ++
              (printFields t (ind + 2) ++ '\n' :: (spaces ind ++ '}' :: rest))).head? =
              some '}') := by
            rw [hX, List.cons_append]
            simp
          simp only [printV, List.cons_append, List.append_assoc, List.nil_append]
          rw [parseV.eq_def]
          simp [skipWs_newline, skipWs_spaces, hskipPF, hneF, hmem, hfs]
          constructor
          · rw [hX]
            simp
          · intro habs
            rw [hX] at habs
            cases habs
    · intro vs ind m rest hwf hm
      rcases vs with _ | ⟨y, t⟩
      · simp only [printItems, List.nil_append]
        rw [skipWs_newline, skipWs_spaces, skipWs_rbracket, parseItems.eq_def]
        simp
      · have hwfy : wfB y = true := by
          have h1 : (wfB y && wfL t) = true := hwf
          simp only [Bool.and_eq_true] at h1
          exact h1.1
        have hwft : wfL t = true := by
          have h1 : (wfB y && wfL t) = true := hwf
          simp only [Bool.and_eq_true] at h1
          exact h1.2
        have hmy : mV y < fuel := by
          have h1 : mL (y :: t) < fuel + 1 := hm
          simp [mL] at h1
          omega
        have hmt : mL t < fuel := by
          have h1 : mL (y :: t) < fuel + 1 := hm
          simp [mL] at h1
          omega
        have hy := ihV y ind (printItems t ind ++ '\n' :: (spaces m ++ ']' :: rest)) hwfy hmy
          (numSafe_items t ind (spaces m ++ ']' :: rest))
        have hi := ihI t ind m rest hwft hmt
        obtain ⟨c, t0, hh, hcw, hc1, hc2⟩ := printV_head y ind hwfy
        have hskip2 : skipWs (printV y ind ++
            (printItems t ind ++ '\n' :: (spaces m ++ ']' :: rest))) =
            printV y ind ++ (printItems t ind ++ '\n' :: (spaces m ++ ']' :: rest)) := by
          rw [hh, List.cons_append]
          exact skipWs_not_ws _ _ hcw
        simp only [printItems, List.cons_append, List.append_assoc]
        rw [skipWs_comma, parseItems.eq_def]
        simp [skipWs_newline, skipWs_spaces, hskip2, hy, hi]
    · intro k w ind rest hwf hm hsafe
      have hv := ihV w ind rest hwf (by omega) hsafe
      obtain ⟨c, t0, hh, hcw, hc1, hc2⟩ := printV_head w ind hwf
      have hskip2 : skipWs (printV w ind ++ rest) = printV w ind ++ rest := by
        rw [hh, List.cons_append]
        exact skipWs_not_ws _ _ hcw
      simp only [printField, quoteStr, List.cons_append, List.append_assoc, List.nil_append]
      rw [parseMember.eq_def]
      simp [parseStrBody_esc, skipWs_colon, skipWs_space, hskip2, hv, string_eta]
    · intro fs ind m rest hwf hm
      rcases fs with _ | ⟨f, t⟩
      · simp only [printFields, List.nil_append]
        rw [skipWs_newline, skipWs_spaces, skipWs_rbrace, parseMembers.eq_def]
        simp
      · rcases f with ⟨k, w⟩
        have hwfw : wfB w = true := by
          have h1 : (wfB w && wfF t) = true := hwf
          simp only [Bool.and_eq_true] at h1
          exact h1.1
        have hwft : wfF t = true := by
          have h1 : (wfB w && wfF t) = true := hwf
          simp only [Bool.and_eq_true] at h1
          exact h1.2
        have hmw : mV w + 1 < fuel := by
          have h1 : mF ((k, w) :: t) < fuel + 1 := hm
          simp [mF] at h1
          omega
        have hmt : mF t < fuel := by
          have h1 : mF ((k, w) :: t) < fuel + 1 := hm
          simp [mF] at h1
          omega
        have hmem := ihM k w ind (printFields t ind ++ '\n' :: (spaces m ++ '}' :: rest))
          hwfw hmw (numSafe_fields t ind (spaces m ++ '}' :: rest))
        have hfs := ihF t ind m rest hwft hmt
        obtain ⟨X, hX⟩ := printField_head (k, w) ind
        have hskipPF : skipWs (printField (k, w) ind ++
            (printFields t ind ++ '\n' :: (spaces m ++ '}' :: rest))) =
            printField (k, w) ind ++
            (printFields t ind ++ '\n' :: (spaces m ++ '}' :: rest)) := by
          rw [hX, List.cons_append]
          exact skipWs_quote _
        simp only [printFields, List.cons_append, List.append_assoc]
        rw [skipWs_comma, parseMembers.eq_def]
        simp [skipWs_newline, skipWs_spaces, hskipPF, hmem, hfs]

/-- Every value the parser produces is well-formed. -/
theorem parse_wf_all : ∀ fuel : Nat,
    (∀ l v rest, parseV fuel l = some (v, rest) → wfB v = true) ∧
    (∀ l vs rest, parseItems fuel l = some (vs, rest) → wfL vs = true) ∧
    (∀ l f rest, parseMember fuel l = some (f, rest) → wfB f.2 = true) ∧
    (∀ l fs rest, parseMembers fuel l = some (fs, rest) → wfF fs = true) := by
  intro fuel
  induction fuel with
  | zero =>
    refine ⟨fun l v rest h => ?_, fun l vs rest h => ?_, fun l f rest h => ?_,
      fun l fs rest h => ?_⟩ <;> cases h
  | succ fuel ih =>
    obtain ⟨ihV, ihI, ihM, ihF⟩ := ih
    refine ⟨?_, ?_, ?_, ?_⟩
    · intro l v rest h
      rcases l with _ | ⟨c, t⟩
      · rw [parseV_nil] at h
        cases h
      · rw [parseV_step] at h
        repeat' split at h
        all_goals try (cases h)
        all_goals try rfl
        · unfold parseStrTail at h
          split at h
          · rename_i cs r hsb
            cases h
            rfl
          · cases h
        · simp only [] at h
          split at h
          · cases h
            rfl
          · split at h
            · rename_i v1 r hv1
              split at h
              · rename_i vs r2 hvs
                cases h
                have w1 := ihV _ _ _ hv1
                have w2 := ihI _ _ _ hvs
                simp [wfB, wfL, w1, w2]
              · cases h
            · cases h
        · simp only [] at h
          split at h
          · cases h
            rfl
          · split at h
            · rename_i f r hf
              split at h
              · rename_i fs r2 hfs
                cases h
                have w1 := ihM _ _ _ hf
                have w2 := ihF _ _ _ hfs
                simp [wfB, wfF, w1, w2]
              · cases h
            · cases h
        · unfold parseNum at h
          simp only [] at h
          split at h
          · rename_i hnum
            cases h
            exact hnum
          · cases h
    · intro l vs rest h
      rcases l with _ | ⟨c, t⟩
      · rw [parseItems_nil] at h
        cases h
      · rw [parseItems_step] at h
        split at h
        · cases h
          rfl
        · split at h
          · split at h
            · rename_i v1 r hv1
              split at h
              · rename_i vs1 r2 hvs
                cases h
                have w1 := ihV _ _ _ hv1
                have w2 := ihI _ _ _ hvs
                simp [wfL, w1, w2]
              · cases h
            · cases h
          · cases h
    · intro l f rest h
      rcases l with _ | ⟨c, t⟩
      · rw [parseMember_nil] at h
        cases h
      · rw [parseMember_step] at h
        split at h
        · split at h
          · rename_i k r hsb
            split at h
            · rename_i r2 hcolon
              split at h
              · rename_i v1 r3 hv1
                cases h
                exact ihV _ _ _ hv1
              · cases h
            · cases h
          · cases h
        · cases h
    · intro l fs rest h
      rcases l with _ | ⟨c, t⟩
      · rw [parseMembers_nil] at h
        cases h
      · rw [parseMembers_step] at h
        split at h
        · cases h
          rfl
        · split at h
          · split at h
            · rename_i f1 r hf
              split at h
              · rename_i fs1 r2 hfs
                cases h
                have w1 := ihM _ _ _ hf
                have w2 := ihF _ _ _ hfs
                simp [wfF, w1, w2]
              · cases h
            · cases h
          · cases h

/-- The structural measure of a well-formed value is bounded by the length
of its printed form, so printed output always carries enough parser fuel. -/
theorem measure_le_print : ∀ (k : Nat),
    (∀ v, wfB v = true → mV v ≤ k → ∀ ind, mV v ≤ (printV v ind).length) ∧
    (∀ vs, wfL vs = true → mL vs ≤ k → ∀ ind, mL vs ≤ (printItems vs ind).length) ∧
    (∀ fs, wfF fs = true → mF fs ≤ k → ∀ ind, mF fs ≤ (printFields fs ind).length) := by
  intro k
  induction k with
  | zero =>
    refine ⟨fun v _ hm ind => absurd (le_trans (mV_pos v) hm) (by omega),
      fun vs _ hm ind => ?_, fun fs _ hm ind => ?_⟩
    · rcases vs with _ | ⟨y, t⟩
      · simp [mL]
      · exact absurd hm (by simp [mL])
    · rcases fs with _ | ⟨f, t⟩
      · simp [mF]
      · exact absurd hm (by simp [mF])
  | succ k ih =>
    obtain ⟨ihV, ihL, ihFF⟩ := ih
    refine ⟨?_, ?_, ?_⟩
    · intro v hwf hm ind
      rcases v with _ | b | lex | s | es | fs
      · simp [mV, printV]
      · rcases b with _ | _ <;> simp [mV, printV]
      · obtain ⟨c, t0, hl, _⟩ := numOk_head lex.data hwf
        simp [mV, printV, hl]
      · simp [mV, printV, quoteStr]
      · rcases es with _ | ⟨y, t⟩
        · simp [mV, mL, printV]
        · have h1 : (wfB y && wfL t) = true := hwf
          simp only [Bool.and_eq_true] at h1
          have hmv : mV (.jarr (y :: t)) ≤ k + 1 := hm
          simp only [mV, mL] at hmv
          have hy := ihV y h1.1 (by omega) (ind + 2)
          have ht := ihL t h1.2 (by omega) (ind + 2)
          simp [mV, mL, printV, List.length_append, spaces_length]
          omega
      · rcases fs with _ | ⟨f, t⟩
        · simp [mV, mF, printV]
        · rcases f with ⟨k1, w⟩
          have h1 : (wfB w && wfF t) = true := hwf
          simp only [Bool.and_eq_true] at h1
          have hmv : mV (.jobj ((k1, w) :: t)) ≤ k + 1 := hm
          simp only [mV, mF] at hmv
          have hw := ihV w h1.1 (by omega) (ind + 2)
          have ht := ihFF t h1.2 (by omega) (ind + 2)
          simp [mV, mF, printV, printField, quoteStr, List.length_append, spaces_length]
          omega
    · intro vs hwf hm ind
      rcases vs with _ | ⟨y, t⟩
      · simp [mL]
      · have h1 : (wfB y && wfL t) = true := hwf
        simp only [Bool.and_eq_true] at h1
        have hmv : mL (y :: t) ≤ k + 1 := hm
        simp only [mL] at hmv
        have hy := ihV y h1.1 (by omega) ind
        have ht := ihL t h1.2 (by omega) ind
        simp [mL, printItems, List.length_append, spaces_length]
        omega
    · intro fs hwf hm ind
      rcases fs with _ | ⟨f, t⟩
      · simp [mF]
      · rcases f with ⟨k1, w⟩
        have h1 : (wfB w && wfF t) = true := hwf
        simp only [Bool.and_eq_true] at h1
        have hmv : mF ((k1, w) :: t) ≤ k + 1 := hm
        simp only [mF] at hmv
        have hw := ihV w h1.1 (by omega) ind
        have ht := ihFF t h1.2 (by omega) ind
        simp [mF, printFields, printField, quoteStr, List.length_append, spaces_length]
        omega

/-- Re-parsing a stringified well-formed value returns exactly that
value. -/
theorem jsonParse_stringify2 (v : JVal) (hwf : wfB v = true) :
    jsonParse (stringify2 v) = some v := by
  obtain ⟨c, t0, hh, hcw, hne1, hne2⟩ := printV_head v 0 hwf
  have hskip : skipWs (printV v 0) = printV v 0 := by
    rw [hh]
    exact skipWs_not_ws _ _ hcw
  have hfuel : mV v < (printV v 0).length + 1 := by
    have hb := (measure_le_print (mV v)).1 v hwf le_rfl 0
    omega
  have hrt := (roundtrip_all ((printV v 0).length + 1)).1 v 0 [] hwf hfuel rfl
  rw [List.append_nil] at hrt
  have hlen : (stringify2 v).length = (printV v 0).length := rfl
  have hdata : (stringify2 v).data = printV v 0 := rfl
  unfold jsonParse
  rw [hlen, hdata, hskip, hrt]
  rfl

/-- A successful `jsonParse` yields a well-formed value. -/
theorem jsonParse_wf (s : String) (v : JVal) (hv : jsonParse s = some v) :
    wfB v = true := by
  unfold jsonParse at hv
  rcases hps : parseV (s.length + 1) (skipWs s.data) with _ | ⟨v1, rest⟩
  · rw [hps] at hv
    cases hv
  · rw [hps] at hv
    have hv2 : (if skipWs rest = [] then some v1 else none) = some v := hv
    by_cases hr : skipWs rest = []
    · rw [if_pos hr] at hv2
      cases hv2
      exact (parse_wf_all _).1 _ _ _ hps
    · rw [if_neg hr] at hv2
      cases hv2

/-- C9: formatting preserves the JSON value and is idempotent. If the
evaluation data parses, `formatJsonInput` replaces it with text whose parse
is the same value, clears the error, and a second format leaves the text
identical; if it does not parse, the data is unchanged and the error
message is recorded. -/
theorem formatJsonInput_spec (s : UIState) :
    (∀ v, jsonParse s.evaluationData = some v →
      ((formatJsonInput s).evaluationData = stringify2 v ∧
        jsonParse ((formatJsonInput s).evaluationData) = some v ∧
        (formatJsonInput (formatJsonInput s)).evaluationData =
          (formatJsonInput s).evaluationData ∧
        (formatJsonInput s).error = "")) ∧
    (jsonParse s.evaluationData = none →
      ((formatJsonInput s).evaluationData = s.evaluationData ∧
        (formatJsonInput s).error = "Invalid JSON format. Unable to format.")) := by
  constructor
  · intro v hv
    have hwf : wfB v = true := jsonParse_wf _ _ hv
    have hrt := jsonParse_stringify2 v hwf
    have h1 : (formatJsonInput s).evaluationData = stringify2 v := by
      simp [formatJsonInput, hv]
    have h2 : jsonParse ((formatJsonInput s).evaluationData) = some v := by
      rw [h1]
      exact hrt
    refine ⟨h1, h2, ?_, ?_⟩
    · set s1 := formatJsonInput s with hs1
      simp [formatJsonInput, h2, h1, hrt]
    · simp [formatJsonInput, hv]
  · intro hn
    constructor <;> simp [formatJsonInput, hn]

theorem formatJsonInput_spec_witness :
    jsonParse ({initialState with evaluationData := "\x7b\"a\": 1\x7d"} : UIState).evaluationData =
        some (.jobj [("a", .jnum "1")]) ∧
      ((formatJsonInput {initialState with evaluationData := "\x7b\"a\": 1\x7d"}).evaluationData =
          stringify2 (.jobj [("a", .jnum "1")]) ∧
        jsonParse ((formatJsonInput
            {initialState with evaluationData := "\x7b\"a\": 1\x7d"}).evaluationData) =
          some (.jobj [("a", .jnum "1")]) ∧
        (formatJsonInput (formatJsonInput
            {initialState with evaluationData := "\x7b\"a\": 1\x7d"})).evaluationData =
          (formatJsonInput {initialState with evaluationData := "\x7b\"a\": 1\x7d"}).evaluationData ∧
        (formatJsonInput {initialState with evaluationData := "\x7b\"a\": 1\x7d"}).error = "") :=
  ⟨rfl, (formatJsonInput_spec {initialState with evaluationData := "\x7b\"a\": 1\x7d"}).1
    (.jobj [("a", .jnum "1")]) rfl⟩

end RuleEngine




